import Mathlib

/-!
Shallow embedding of the MacroDataFlow (MDF) execution engine
(`src/token.hpp`, `src/function.hpp`, `src/graph.hpp`, `src/instruction.hpp`,
`src/mdf.hpp`, `src/executor.hpp`).

Conventions of the embedding:
* C++ `std::vector` becomes `List`; `vector::at` out-of-range throws are
  modelled by an explicit `indexOutOfRange` error; `operator[]` out of range
  (undefined behaviour in C++) is modelled by `List.getD` / `List.set`
  (which reads a default / is a no-op); no claim exercises that case.
* Exceptions (`std::invalid_argument` and friends) become an error value.
  Builder operations that can throw AFTER having already mutated state
  return `Mdf × Option BuildError` (the C++ object keeps the partial
  mutation when the exception propagates); operations whose checks all
  precede any mutation return `Except`.
* `std::atomic_int` / `std::atomic_flag` fields become plain `Int` / `Bool`
  fields of the per-run instance; concurrency is modelled by the
  interleaving transition system `WStep` below, whose atomic steps
  correspond to the atomic operations of the worker loop.
* Machine integers: all sizes are far below 2^31 in every statement here;
  `uint32_t` words of `Bitmask` are `Nat` values kept below 2^32 by the
  operations themselves (bitwise or of values below 2^32).
-/

namespace MDF

/-- Tokens (`token.hpp`): a `TokenSlot<T>` holds an arbitrary user value; we
model scalar payloads by `Nat` and the MERGE payload (a whole
`token_vector_t`, i.e. a vector of possibly-null token pointers) by a nested
list. Value equality of the model stands for the shared-pointer identity of
the source where the claims speak about "the same token". -/
inductive Token where
  | val : Nat → Token
  | vec : List (Option Token) → Token

/-- A `token_vector_t` is a vector of `shared_ptr<Token>`; null entries are
`none`. -/
abbrev TokenVec := List (Option Token)

/-- The three node kinds of `graph.hpp` (`enum node_type`). -/
inductive NodeType where
  | standard
  | split
  | merge
deriving DecidableEq, Repr

/-- Every distinct `throw` site of the source, plus the two model artifacts
`outOfFuel` (the fuel of the DFS embedding, proven unreachable with enough
fuel) and `indexOutOfRange` (`std::vector::at`). -/
inductive BuildError where
  | notModifiable
  | sizeTooSmall
  | nullInstruction
  | foreignNode
  | mapNotEmpty
  | mapSizeMismatch
  | mapFull
  | slotOutOfRange
  | selfLoop
  | slotAlreadyWired
  | notSameGraph
  | inputNotComplete
  | inputHasDependents
  | outputMapNonEmpty
  | outputMissingTokens
  | markersInvalid
  | incompleteOutputMap
  | cycleDetected
  | unreachableNodes
  | outOfFuel
  | indexOutOfRange
deriving DecidableEq, Repr

/-- `Bitmask` of `graph.hpp`: `n` bits stored in 32-bit words.
`lastMask` is the member `LAST_MASK` (initialised `0xFFFFFFFF`, replaced in
the constructor when `n % 32 != 0`). -/
structure Bitmask where
  n : Nat
  lastMask : Nat
  words : List Nat
deriving DecidableEq, Repr

/-- The constant `Bitmask::MASK`. -/
def MASK : Nat := 0xFFFFFFFF

/-- `Bitmask::Bitmask(uint32_t n)`: `_array_size = ceil(n / 32.0)` words of
zero; `LAST_MASK = (1 << (n % 32)) - 1` when `n % 32 != 0`. -/
def Bitmask.init (n : Nat) : Bitmask :=
  { n := n
    lastMask := if n % 32 ≠ 0 then (1 <<< (n % 32)) - 1 else MASK
    words := List.replicate ((n + 31) / 32) 0 }

/-- `Bitmask::set(x)`: returns `none` when bit `x` was already set (the
source returns `false`), otherwise the mask with bit `x` set. -/
def Bitmask.set (b : Bitmask) (x : Nat) : Option Bitmask :=
  let base := x / 32
  let offset := x % 32
  if b.words.getD base 0 &&& (1 <<< offset) ≠ 0 then none
  else some { b with words := b.words.set base (b.words.getD base 0 ||| (1 <<< offset)) }

/-- `Bitmask::all_set()`: NOTE the source iterates `i < (int)_array_size - 2`,
so for masks of two or more words the word at index `_array_size - 2` is
never compared against `MASK`; only the last word is compared against
`LAST_MASK`. The embedding reproduces this faithfully. -/
def Bitmask.all_set (b : Bitmask) : Bool :=
  ((List.range (b.words.length - 2)).all fun i => b.words.getD i 0 == MASK) &&
    (b.words.getD (b.words.length - 1) 0 == b.lastMask)

/-- `Bitmask::all_zeros()`. -/
def Bitmask.all_zeros (b : Bitmask) : Bool :=
  b.words.all fun w => w == 0

/-- Whether bit `x` of the mask is set (used only in statements, not part of
the source API). -/
def Bitmask.testBit (b : Bitmask) (x : Nat) : Bool :=
  b.words.getD (x / 32) 0 &&& (1 <<< (x % 32)) ≠ 0

/-- The `Function` interface of `function.hpp`: an opaque user callable with
fixed arity and output arity.  `call` models `Function::execute`. -/
structure Function where
  arity : Nat
  output_size : Nat
  call : TokenVec → TokenVec

/-- `FunctionPlaceHolder`: arity 0, output size 0, `execute` returns null
(modelled as the empty vector; split/merge nodes never call it). -/
def FunctionPlaceHolder : Function :=
  { arity := 0, output_size := 0, call := fun _ => [] }

/-- `Node` of `graph.hpp`.  The builder and the per-run instance use the same
record; `tokens_count` is the atomic `_tokens_count`, `processed` the atomic
flag `_processed` (a run-instance field; the default-constructed flag is
modelled as clear).  The source also carries a `_is_complete` flag that is
written in the constructors and never read; it is omitted. -/
structure Node where
  type : NodeType
  node_id : Nat
  tokens_count : Int
  input_tokens : TokenVec
  successors : List Nat
  dependents : Bitmask
  output_map : List (Nat × Nat)
  function : Function
  input_size : Nat
  output_size : Nat
  is_output : Bool
  processed : Bool

/-- `Node::Node(size_t, shared_ptr<Function>&)`: a STANDARD node. -/
def Node.ofFunction (id : Nat) (f : Function) : Node :=
  { type := .standard
    node_id := id
    tokens_count := (f.arity : Int)
    input_tokens := []
    successors := []
    dependents := Bitmask.init f.arity
    output_map := []
    function := f
    input_size := f.arity
    output_size := f.output_size
    is_output := false
    processed := false }

/-- `Node::Node(size_t, node_type, size_t)`: a SPLIT or MERGE node.
MERGE(size): `input_size = size`, `output_size = 1`; otherwise
`input_size = 1`, `output_size = size`. -/
def Node.ofType (id : Nat) (t : NodeType) (size : Nat) : Node :=
  let insz : Nat := if t = .merge then size else 1
  let outsz : Nat := if t = .merge then 1 else size
  { type := t
    node_id := id
    tokens_count := (insz : Int)
    input_tokens := []
    successors := []
    dependents := Bitmask.init insz
    output_map := []
    function := FunctionPlaceHolder
    input_size := insz
    output_size := outsz
    is_output := false
    processed := false }

/-- `Node::Node(size_t node_id, Node& node)`: clone for `clone_node` — same
kind, arities and function, but fresh (empty) wiring. -/
def Node.cloneFresh (id : Nat) (nd : Node) : Node :=
  { type := nd.type
    node_id := id
    tokens_count := (nd.input_size : Int)
    input_tokens := []
    successors := []
    dependents := Bitmask.init nd.input_size
    output_map := []
    function := nd.function
    input_size := nd.input_size
    output_size := nd.output_size
    is_output := false
    processed := false }

/-- `Node::Node(Node&)`: the per-instance copy used by `Graph`'s copy
constructor — a fresh null-filled `input_tokens` vector of length
`input_size`, `tokens_count` re-initialised to the template's `input_size`,
shared wiring and function.  (The source leaves `_input_size` and
`_processed` of the copy uninitialised; `_input_size` is never read on an
instance and the flag is modelled as clear.) -/
def Node.instanceCopy (nd : Node) : Node :=
  { type := nd.type
    node_id := nd.node_id
    tokens_count := (nd.input_size : Int)
    input_tokens := List.replicate nd.input_size none
    successors := nd.successors
    dependents := nd.dependents
    output_map := nd.output_map
    function := nd.function
    input_size := nd.input_size
    output_size := nd.output_size
    is_output := nd.is_output
    processed := false }

/-- `Node::execute()` (`graph.hpp`):
STANDARD returns `function->execute(input_tokens)`;
MERGE returns a single token wrapping the whole input vector;
SPLIT returns a vector of length `output_size` whose every entry is (a
reference to) `input_tokens[0]`. -/
def Node.execute (nd : Node) : TokenVec :=
  match nd.type with
  | .standard => nd.function.call nd.input_tokens
  | .merge => [some (Token.vec nd.input_tokens)]
  | .split => List.replicate nd.output_size (nd.input_tokens.getD 0 none)

/-- `Graph` of `graph.hpp`.  `counter` is the member `_counter`
(graph.hpp:154,172): it is initialised to 0 by `Graph::Graph()`, incremented
by `check_node` for every freshly visited node, compared against
`_nodes.size()` at the end of `check_graph`, and NEVER reset — a failed
`validate()` leaves it polluted for any later `validate()` call. -/
structure Graph where
  nodes : List Node
  output_node : Int
  input_node : Int
  counter : Nat

/-- The empty graph (`Graph::Graph()`). -/
def Graph.empty : Graph :=
  { nodes := [], output_node := -1, input_node := -1, counter := 0 }

/-- Node lookup (`_nodes.at(i)` without the throw). -/
def Graph.node? (g : Graph) (i : Nat) : Option Node :=
  g.nodes[i]?

/-- Replace node `i` (models in-place mutation through `_nodes.at(i)`). -/
def Graph.setNode (g : Graph) (i : Nat) (nd : Node) : Graph :=
  { g with nodes := g.nodes.set i nd }

/-- The successor list of node `u` (empty when `u` is out of range). -/
def Graph.succOf (g : Graph) (u : Nat) : List Nat :=
  match g.nodes[u]? with
  | some nd => nd.successors
  | none => []

/-- The output map of node `u` (empty when `u` is out of range). -/
def Graph.mapOf (g : Graph) (u : Nat) : List (Nat × Nat) :=
  match g.nodes[u]? with
  | some nd => nd.output_map
  | none => []

/-- `is_output` of node `u`. -/
def Graph.isOut (g : Graph) (u : Nat) : Bool :=
  match g.nodes[u]? with
  | some nd => nd.is_output
  | none => false

/-- The edge relation of the graph: `v` is a successor of `u`. -/
def Graph.step (g : Graph) (u v : Nat) : Prop :=
  v ∈ g.succOf u

/-- `Graph::Graph(const Graph&)`: the per-run instance clone — every node is
copied through `Node::Node(Node&)`, markers are copied.  The source leaves
the copy's `_counter` uninitialised (graph.hpp:306-313) and never reads it
on an instance; it is pinned to 0 here. -/
def Graph.clone (g : Graph) : Graph :=
  { nodes := g.nodes.map Node.instanceCopy
    output_node := g.output_node
    input_node := g.input_node
    counter := 0 }

/-- Events recorded by the embedding of `Graph::transfer_tokens`, in source
order: `dec t` is the `fetch_sub(1)` on node `t`'s `_tokens_count`,
`write t s` is the assignment `vec[s] = output->at(i)` into node `t`'s
input slot `s`. -/
inductive TTEvent where
  | dec : Nat → TTEvent
  | write : Nat → Nat → TTEvent
deriving DecidableEq, Repr

/-- Decrement `_tokens_count` of node `t` by one. -/
def Graph.decCount (g : Graph) (t : Nat) : Graph :=
  match g.nodes[t]? with
  | some nd => g.setNode t { nd with tokens_count := nd.tokens_count - 1 }
  | none => g

/-- Write token `o` into input slot `s` of node `t`. -/
def Graph.writeSlot (g : Graph) (t s : Nat) (o : Option Token) : Graph :=
  match g.nodes[t]? with
  | some nd => g.setNode t { nd with input_tokens := nd.input_tokens.set s o }
  | none => g

/-- `Graph::transfer_tokens(output, output_map)`: iterate the map in order;
for the i-th pair `(node_id, token_id)` the source FIRST performs
`_tokens_count.fetch_sub(1)` on the target and THEN writes
`vec[token_id] = output->at(i)`.  The event list records this order.  An
out-of-range `at(i)` (map longer than the output vector) throws after the
decrement of that entry; an out-of-range target id throws before it. -/
def Graph.transfer_tokens (g : Graph) (output : TokenVec) (map : List (Nat × Nat)) :
    Graph × List TTEvent × Option BuildError :=
  match map with
  | [] => (g, [], none)
  | (node_id, token_id) :: rest =>
    if node_id < g.nodes.length then
      let g1 := g.decCount node_id
      match output with
      | [] => (g1, [TTEvent.dec node_id], some .indexOutOfRange)
      | o :: orest =>
        let g2 := g1.writeSlot node_id token_id o
        let r := g2.transfer_tokens orest rest
        (r.1, TTEvent.dec node_id :: TTEvent.write node_id token_id :: r.2.1, r.2.2)
    else (g, [], some .indexOutOfRange)

/-- Helper of `Graph::send_input_tokens`: writes the i-th argument into the
i-th input slot of the input node (the source template recursion fills the
slots from index `size - 1` down to 0; the net effect on distinct indices is
the same). -/
def writeArgsFrom (slots : TokenVec) (args : List Token) (i : Nat) : TokenVec :=
  match args with
  | [] => slots
  | a :: rest => writeArgsFrom (slots.set i (some a)) rest (i + 1)

/-- `Graph::send_input_tokens(args...)`: fills `_nodes.at(_input_node)`'s
`_input_tokens` from the arguments, one slot per argument, in order.  It
touches neither `_tokens_count` nor `_processed`. -/
def Graph.send_input_tokens (g : Graph) (args : List Token) : Graph :=
  match g.nodes[g.input_node.toNat]? with
  | some nd => g.setNode g.input_node.toNat { nd with input_tokens := writeArgsFrom nd.input_tokens args 0 }
  | none => g

/-- State of the depth-first validation of `Graph::check_node`: the `visited`
and `stack` boolean arrays and the member `_counter`. -/
structure DfsState where
  visited : List Bool
  stack : List Bool
  counter : Nat
deriving DecidableEq, Repr

/-- Result of `check_node` and of its successor loop: the DFS state (the
`visited` / `stack` arrays live in `check_graph`'s frame and the counter is
the member `_counter`, so all three survive a thrown exception up to
`check_graph`), paired with the exception, if one was thrown. -/
abbrev DfsResult := DfsState × Option BuildError

/-- `Graph::check_node(id, visited, stack)`, fuelled (the fuel bounds the
recursion DEPTH — one unit per nesting level; `check_graph` passes
`nodes.length + 1`, proven sufficient below).  Mirrors the source: an
already-visited id only clears its stack bit; a fresh id bumps the counter,
marks both arrays, checks the output map of every non-terminal node, runs
the successor loop (an unvisited successor is recursed into, a visited
successor still on the stack is a back edge), and finally clears its stack
bit. -/
def Graph.check_node (g : Graph) : Nat → DfsState → Nat → DfsResult
  | 0, st, _ => (st, some .outOfFuel)
  | fuel' + 1, st, id =>
    if st.visited.getD id false then
      ({ st with stack := st.stack.set id false }, none)
    else
      let st1 : DfsState :=
        { visited := st.visited.set id true
          stack := st.stack.set id true
          counter := st.counter + 1 }
      match g.nodes[id]? with
      | none => (st1, some .indexOutOfRange)
      | some nd =>
        if (id : Int) ≠ g.output_node ∧ nd.output_map.length ≠ nd.output_size then
          (st1, some .incompleteOutputMap)
        else
          match nd.successors.foldl
              (fun (acc : DfsResult) (adj : Nat) =>
                match acc with
                | (stE, some e) => (stE, some e)
                | (st'', none) =>
                  if ¬ st''.visited.getD adj false then
                    g.check_node fuel' st'' adj
                  else if st''.stack.getD adj false then
                    (st'', some .cycleDetected)
                  else
                    (st'', none))
              (st1, none) with
          | (stE, some e) => (stE, some e)
          | (st2, none) => ({ st2 with stack := st2.stack.set id false }, none)

/-- The successor loop of `Graph::check_node`, as a standalone function (the
fold above with its starting state): used to state the loop's invariants. -/
def Graph.check_adj (g : Graph) (fuel : Nat) (r : DfsResult) (adjs : List Nat) : DfsResult :=
  adjs.foldl
    (fun (acc : DfsResult) (adj : Nat) =>
      match acc with
      | (stE, some e) => (stE, some e)
      | (st'', none) =>
        if ¬ st''.visited.getD adj false then
          g.check_node fuel st'' adj
        else if st''.stack.getD adj false then
          (st'', some .cycleDetected)
        else
          (st'', none))
    r

/-- `Graph::check_graph()`: marker checks, then the DFS from the input node
on fresh local arrays but with the PERSISTENT member `_counter` as it
stands (the source never resets it), then the reachability count.  Returns
the graph with the counter as the DFS left it — on success and on error
alike, since `_counter` is a member — paired with the exception, if any. -/
def Graph.check_graph (g : Graph) : Graph × Option BuildError :=
  if g.input_node = g.output_node ∨ g.input_node = -1 ∨ g.output_node = -1 then
    (g, some .markersInvalid)
  else
    let st0 : DfsState :=
      { visited := List.replicate g.nodes.length false
        stack := List.replicate g.nodes.length false
        counter := g.counter }
    match g.check_node (g.nodes.length + 1) st0 g.input_node.toNat with
    | (stE, some e) => ({ g with counter := stE.counter }, some e)
    | (st, none) =>
      if st.counter ≠ g.nodes.length then
        ({ g with counter := st.counter }, some .unreachableNodes)
      else ({ g with counter := st.counter }, none)

/-- `Instruction` of `instruction.hpp`: a handle wrapping a node pointer
(modelled by the node id), the owning graph's identity, and the two helper
cursors `_last_token` / `_last_output` (handle-local, NOT node state; the
copy constructor resets them). -/
structure Instruction where
  node_id : Nat
  graph_id : Nat
  last_token : Nat
  last_output : Nat
deriving DecidableEq, Repr

/-- `Mdf` of `mdf.hpp`: the graph under construction, its identity
(`_graph_id`, the address of the owned graph) and the `_valid` flag. -/
structure Mdf where
  graph : Graph
  graph_id : Nat
  valid : Bool

/-- `Mdf::Mdf()`: fresh empty graph, not yet validated.  The identity is a
parameter (the source uses the heap address). -/
def Mdf.new (gid : Nat) : Mdf :=
  { graph := Graph.empty, graph_id := gid, valid := false }

/-- Resolve an instruction's node inside this Mdf's graph.  The handles used
in all statements below come from this same Mdf, matching the source where
the handle stores a direct `Node*`. -/
def Mdf.nodeOf (m : Mdf) (ins : Instruction) : Option Node :=
  m.graph.nodes[ins.node_id]?

/-- `Instruction::output_size()` as read through a handle into this Mdf. -/
def Mdf.outputSizeOf (m : Mdf) (ins : Instruction) : Nat :=
  match m.nodeOf ins with
  | some nd => nd.output_size
  | none => 0

/-- `Instruction::input_size()` as read through a handle into this Mdf. -/
def Mdf.inputSizeOf (m : Mdf) (ins : Instruction) : Nat :=
  match m.nodeOf ins with
  | some nd => nd.input_size
  | none => 0

/-- `Mdf::merge_node(input_size)`: NOTE the source checks only
`input_size < 1` — it does NOT check `_valid`.  Appends a MERGE node. -/
def Mdf.merge_node (m : Mdf) (input_size : Nat) : Except BuildError (Mdf × Instruction) :=
  if input_size < 1 then .error .sizeTooSmall
  else
    let id := m.graph.nodes.length
    let nd := Node.ofType id .merge input_size
    .ok ({ m with graph := { m.graph with nodes := m.graph.nodes ++ [nd] } },
         { node_id := id, graph_id := m.graph_id, last_token := 0, last_output := 0 })

/-- `Mdf::split_node(output_size)`: same shape as `merge_node`; no `_valid`
check in the source. -/
def Mdf.split_node (m : Mdf) (output_size : Nat) : Except BuildError (Mdf × Instruction) :=
  if output_size < 1 then .error .sizeTooSmall
  else
    let id := m.graph.nodes.length
    let nd := Node.ofType id .split output_size
    .ok ({ m with graph := { m.graph with nodes := m.graph.nodes ++ [nd] } },
         { node_id := id, graph_id := m.graph_id, last_token := 0, last_output := 0 })

/-- `Mdf::emplace_back(callable, params...)`: appends a STANDARD node whose
arities come from the callable's signature; no `_valid` check in the
source. -/
def Mdf.emplace_function (m : Mdf) (f : Function) : Mdf × Instruction :=
  let id := m.graph.nodes.length
  let nd := Node.ofFunction id f
  ({ m with graph := { m.graph with nodes := m.graph.nodes ++ [nd] } },
   { node_id := id, graph_id := m.graph_id, last_token := 0, last_output := 0 })

/-- `Mdf::emplace_back(Instruction&)` (clone): only checks that the handle is
non-null; no `_valid` check in the source.  The cloned node may come from a
different template; `src` is its node record. -/
def Mdf.clone_node (m : Mdf) (src : Option Node) : Except BuildError (Mdf × Instruction) :=
  match src with
  | none => .error .nullInstruction
  | some nd =>
    let id := m.graph.nodes.length
    let nd' := Node.cloneFresh id nd
    .ok ({ m with graph := { m.graph with nodes := m.graph.nodes ++ [nd'] } },
         { node_id := id, graph_id := m.graph_id, last_token := 0, last_output := 0 })

/-- `Mdf::add_successor`: deduplicating push onto the producer's successor
list. -/
def addSuccessorList (l : List Nat) (v : Nat) : List Nat :=
  if v ∈ l then l else l ++ [v]

/-- `Mdf::add_successor` applied to the producer node's successor list.
The wiring loop shared by `Mdf::set_output` and `Mdf::add_output` is split
below into `addSucc`, `addDep` and `wireEntry`; on failure the loop returns
the error AND the graph as mutated so far (the source throws out of the
loop, keeping earlier mutations). -/
def addSucc (g : Graph) (producer next_ins : Nat) : Graph :=
  match g.nodes[producer]? with
  | some pnd => g.setNode producer { pnd with successors := addSuccessorList pnd.successors next_ins }
  | none => g

/-- `add_dependent` on the target node plus the final pair assembly of one
wiring entry (the dependent-bit test-and-set throws when the bit is set). -/
def addDep (g : Graph) (next_ins token_id : Nat) : Graph × Option BuildError :=
  match g.nodes[next_ins]? with
  | some tnd =>
    match tnd.dependents.set token_id with
    | none => (g, some .slotAlreadyWired)
    | some mask' => (g.setNode next_ins { tnd with dependents := mask' }, none)
  | none => (g, some .indexOutOfRange)

/-- One entry of the wiring loop (see `wireEntries`): target look-up through
`_nodes.at`, slot range check, self-loop check, `add_successor` on the
producer, `add_dependent` on the target. -/
def wireEntry (g : Graph) (producer : Nat) (entry : Nat × Nat) :
    Graph × Option BuildError :=
  match g.nodes[entry.1]? with
  | none => (g, some .indexOutOfRange)
  | some next_node =>
    if entry.2 ≥ next_node.input_size then (g, some .slotOutOfRange)
    else if entry.1 = producer then (g, some .selfLoop)
    else addDep (addSucc g producer entry.1) entry.1 entry.2

/-- The entry loop of `Mdf::set_output`. -/
def wireEntries (g : Graph) (producer : Nat) : List (Nat × Nat) → Graph × Option BuildError
  | [] => (g, none)
  | entry :: rest =>
    match wireEntry g producer entry with
    | (g', some e) => (g', some e)
    | (g', none) => wireEntries g' producer rest

/-- `Mdf::set_output(instruction, output_map)`: checks `_valid`, graph
identity, empty current map and map size, then wires every entry (mutating
successors and dependent bits as it goes — an error part-way through keeps
the earlier mutations), and finally installs the map. -/
def Mdf.set_output (m : Mdf) (ins : Instruction) (output_map : List (Nat × Nat)) :
    Mdf × Option BuildError :=
  if m.valid then (m, some .notModifiable)
  else if m.graph_id ≠ ins.graph_id then (m, some .foreignNode)
  else
    match m.graph.nodes[ins.node_id]? with
    | none => (m, some .indexOutOfRange)
    | some nd =>
      if nd.output_map.length > 0 then (m, some .mapNotEmpty)
      else if output_map.length ≠ nd.output_size then (m, some .mapSizeMismatch)
      else
        match wireEntries m.graph ins.node_id output_map with
        | (g', some e) => ({ m with graph := g' }, some e)
        | (g', none) =>
          match g'.nodes[ins.node_id]? with
          | some nd' =>
            ({ m with graph := g'.setNode ins.node_id { nd' with output_map := output_map } }, none)
          | none => ({ m with graph := g' }, some .indexOutOfRange)

/-- `Mdf::add_output(instruction, inst_coord)`: checks `_valid`, graph
identity and map fullness, wires the single entry (an error keeps the
successor added before a failing dependent check), then appends the entry to
the map. -/
def Mdf.add_output (m : Mdf) (ins : Instruction) (inst_coord : Nat × Nat) :
    Mdf × Option BuildError :=
  if m.valid then (m, some .notModifiable)
  else if m.graph_id ≠ ins.graph_id then (m, some .foreignNode)
  else
    match m.graph.nodes[ins.node_id]? with
    | none => (m, some .indexOutOfRange)
    | some nd =>
      if nd.output_map.length ≥ nd.output_size then (m, some .mapFull)
      else
        match wireEntry m.graph ins.node_id inst_coord with
        | (g', some e) => ({ m with graph := g' }, some e)
        | (g', none) =>
          match g'.nodes[ins.node_id]? with
          | some nd' =>
            ({ m with graph := g'.setNode ins.node_id { nd' with output_map := nd'.output_map ++ [inst_coord] } }, none)
          | none => ({ m with graph := g' }, some .indexOutOfRange)

/-- The loop of the single-consumer `Mdf::send_to(instruction, other)`:
`count` iterations of `add_output(instruction, {other(), _last_output++})`.
The cursor lives on the producer HANDLE and is incremented before the
`add_output` call (its post-increment is evaluated while building the
argument), so a failing iteration still leaves the cursor advanced. -/
def Mdf.sendToLoop (m : Mdf) (ins : Instruction) (other_id : Nat) :
    Nat → (Mdf × Instruction) × Option BuildError
  | 0 => ((m, ins), none)
  | count + 1 =>
    let cursor := ins.last_output
    let ins' := { ins with last_output := cursor + 1 }
    match m.add_output ins' (other_id, cursor) with
    | (m', some e) => ((m', ins'), some e)
    | (m', none) => m'.sendToLoop ins' other_id count

/-- `Mdf::send_to(instruction, other)` (single consumer): same-graph check,
then `output_size` iterations of `add_output` driven by the `_last_output`
cursor.  Returns the updated producer handle (passed by reference in the
source). -/
def Mdf.send_to1 (m : Mdf) (ins other : Instruction) :
    (Mdf × Instruction) × Option BuildError :=
  if ins.graph_id ≠ other.graph_id then ((m, ins), some .notSameGraph)
  else m.sendToLoop ins other.node_id (m.outputSizeOf ins)

/-- The variadic `Mdf::send_to(instruction, head, other...)`: the consumers
in declaration order, each handled by a full single-consumer `send_to`; an
exception stops the sequence. -/
def Mdf.send_to (m : Mdf) (ins : Instruction) :
    List Instruction → (Mdf × Instruction) × Option BuildError
  | [] => ((m, ins), none)
  | c :: cs =>
    match m.send_to1 ins c with
    | (r, some e) => (r, some e)
    | ((m', ins'), none) => m'.send_to ins' cs

/-- `Mdf::mark_as_input(instruction)`: checks `_valid`, full output map,
all-zero dependents, graph identity (in this order), then records the input
node id. -/
def Mdf.mark_as_input (m : Mdf) (ins : Instruction) : Mdf × Option BuildError :=
  if m.valid then (m, some .notModifiable)
  else
    match m.graph.nodes[ins.node_id]? with
    | none => (m, some .indexOutOfRange)
    | some nd =>
      if nd.output_map.length ≠ nd.output_size then (m, some .inputNotComplete)
      else if ¬ nd.dependents.all_zeros then (m, some .inputHasDependents)
      else if m.graph_id ≠ ins.graph_id then (m, some .foreignNode)
      else ({ m with graph := { m.graph with input_node := (ins.node_id : Int) } }, none)

/-- `Mdf::mark_as_output(instruction)`: checks `_valid`, empty output map,
`all_set` dependents (with the source's off-by-one for masks of two or more
words), graph identity, then records the output node id and sets the node's
`_is_output`. -/
def Mdf.mark_as_output (m : Mdf) (ins : Instruction) : Mdf × Option BuildError :=
  if m.valid then (m, some .notModifiable)
  else
    match m.graph.nodes[ins.node_id]? with
    | none => (m, some .indexOutOfRange)
    | some nd =>
      if nd.output_map.length ≠ 0 then (m, some .outputMapNonEmpty)
      else if ¬ nd.dependents.all_set then (m, some .outputMissingTokens)
      else if m.graph_id ≠ ins.graph_id then (m, some .foreignNode)
      else
        let g1 : Graph := { m.graph with output_node := (ins.node_id : Int) }
        let g2 : Graph := g1.setNode ins.node_id { nd with is_output := true }
        ({ m with graph := g2 }, none)

/-- `Mdf::validate()`: runs `check_graph` only when `_valid` is still
false, and sets `_valid` on success.  The graph — in particular its
persistent `_counter`, mutated by the DFS even when it throws — is kept in
either case. -/
def Mdf.validate (m : Mdf) : Mdf × Option BuildError :=
  if m.valid then (m, none)
  else
    match m.graph.check_graph with
    | (gE, some e) => ({ m with graph := gE }, some e)
    | (g', none) => ({ m with graph := g', valid := true }, none)

/-- An in-flight worker job of `executor.hpp`: the popped node id, the output
vector produced by `node->execute()`, the output-map entries not yet
transferred (consumed in lock-step with the output vector), and the
successors not yet scanned.  This is the worker's local state between its
atomic operations. -/
structure JobState where
  node : Nat
  out : TokenVec
  remMap : List (Nat × Nat)
  remSucc : List Nat

/-- Global state of one run instance under the worker pool: the cloned
instance graph (whose nodes carry the atomic `_tokens_count` and
`_processed`), the FIFO job queue (node ids of this instance), the in-flight
jobs, and two history counters (how often each node id has been pushed onto
resp. popped from the queue — bookkeeping of the model, not program
state). -/
structure RunState where
  inst : Graph
  queue : List Nat
  jobs : List JobState
  enqHist : Nat → Nat
  popHist : Nat → Nat

/-- `Executor::run(graph, input_args...)` up to the enqueue of the seed job:
`validate()` (can throw), clone the template (`new Graph(*graph._graph)`),
`send_input_tokens(args...)`, then push the job
`(instance, _input_node)`.  The source neither clears the input node's
`_tokens_count` nor touches its `_processed` flag.  Returns the validate
result and, on success, the initial `RunState`. -/
def Executor.run (m : Mdf) (args : List Token) :
    (Mdf × Option BuildError) × Option RunState :=
  match m.validate with
  | (m', some e) => ((m', some e), none)
  | (m', none) =>
    let inst := m'.graph.clone.send_input_tokens args
    let inp := m'.graph.input_node.toNat
    ((m', none),
     some { inst := inst
            queue := [inp]
            jobs := []
            enqHist := fun v => if v = inp then 1 else 0
            popHist := fun _ => 0 })

/-- One atomic transition of the worker pool (`executor.hpp`, worker loop).
Each constructor is one source-level atomic action:

* `popOut` / `popRun`: a worker pops the queue head under the mutex and runs
  `node->execute()` on it.  For the terminal node it fulfils the promise and
  stops (no transfer, no scan); otherwise the job enters its transfer phase.
* `transferStep`: one iteration of the `transfer_tokens` loop — the
  `fetch_sub(1)` on the target's `_tokens_count` followed by this entry's
  slot write (`vec[token_id] = output->at(i)`, which the source performs
  AFTER the decrement).
* `scanStep`: one iteration of the successor loop — the load of
  `_tokens_count` combined with the `test_and_set` of `_processed`; when the
  count reads 0 and the flag was clear, the successor is enqueued.  (Both
  fields are monotone — the count never increases, the flag is never
  cleared — so merging load and test-and-set into one step preserves the
  reachable outcomes.)

Any interleaving of any number of workers over these atomic actions is a
behaviour of this relation. -/
inductive WStep : RunState → RunState → Prop where
  | popOut (s : RunState) (u : Nat) (q' : List Nat) :
      s.queue = u :: q' →
      s.inst.isOut u = true →
      WStep s { s with queue := q',
                       popHist := fun v => if v = u then s.popHist v + 1 else s.popHist v }
  | popRun (s : RunState) (u : Nat) (q' : List Nat) (nd : Node) :
      s.queue = u :: q' →
      s.inst.nodes[u]? = some nd →
      nd.is_output = false →
      WStep s { s with queue := q',
                       jobs := s.jobs ++ [{ node := u, out := nd.execute,
                                            remMap := nd.output_map, remSucc := nd.successors }],
                       popHist := fun v => if v = u then s.popHist v + 1 else s.popHist v }
  | transferStep (s : RunState) (j : Nat) (job : JobState)
      (t sl : Nat) (rm : List (Nat × Nat)) (o : Option Token) (orest : TokenVec) :
      s.jobs[j]? = some job →
      job.remMap = (t, sl) :: rm →
      job.out = o :: orest →
      WStep s { s with inst := (s.inst.decCount t).writeSlot t sl o,
                       jobs := s.jobs.set j { job with out := orest, remMap := rm } }
  | scanHit (s : RunState) (j : Nat) (job : JobState) (v : Nat) (vs : List Nat) (nd : Node) :
      s.jobs[j]? = some job →
      job.remMap = [] →
      job.remSucc = v :: vs →
      s.inst.nodes[v]? = some nd →
      nd.tokens_count = 0 →
      nd.processed = false →
      WStep s { s with inst := s.inst.setNode v { nd with processed := true },
                       queue := s.queue ++ [v],
                       jobs := s.jobs.set j { job with remSucc := vs },
                       enqHist := fun w => if w = v then s.enqHist w + 1 else s.enqHist w }
  | scanMiss (s : RunState) (j : Nat) (job : JobState) (v : Nat) (vs : List Nat) :
      s.jobs[j]? = some job →
      job.remMap = [] →
      job.remSucc = v :: vs →
      (∀ nd, s.inst.nodes[v]? = some nd → nd.tokens_count ≠ 0 ∨ nd.processed = true) →
      WStep s { s with jobs := s.jobs.set j { job with remSucc := vs } }

/-- All states a run can reach from its seed state. -/
def RunReachable (s0 s : RunState) : Prop :=
  Relation.ReflTransGen WStep s0 s

/-! Derived读 predicates and specification-side notions used by the theorems. -/

/-- Reachability over the successor relation. -/
def Graph.reaches (g : Graph) (a b : Nat) : Prop :=
  Relation.ReflTransGen g.step a b

/-- A non-trivial successor path from `u` back to itself. -/
def Graph.cycleAt (g : Graph) (u : Nat) : Prop :=
  Relation.TransGen g.step u u

/-- Well-formedness produced by the builder: every successor id denotes a
node of the graph. -/
def Graph.succWF (g : Graph) : Prop :=
  ∀ u v, g.step u v → v < g.nodes.length

/-- Well-formedness produced by the builder: every output-map target denotes
a node of the graph. -/
def Graph.mapWF (g : Graph) : Prop :=
  ∀ u, ∀ e ∈ g.mapOf u, e.1 < g.nodes.length

/-- Well-formedness produced by the builder: the input marker is `-1` or a
node id of the graph. -/
def Graph.inputWF (g : Graph) : Prop :=
  g.input_node = -1 ∨ (0 ≤ g.input_node ∧ g.input_node.toNat < g.nodes.length)

/-- Node `v` has a full output map (vacuously true off the node table). -/
def Graph.mapComplete (g : Graph) (v : Nat) : Prop :=
  ∀ nd, g.nodes[v]? = some nd → nd.output_map.length = nd.output_size

/-- The conditions of claim C2, written from the spec's words: markers set
and distinct; every node reached from the input node; every reached
non-terminal node has a full output map; no back edge, i.e. no cycle among
the reached nodes. -/
def Graph.validationSpec (g : Graph) : Prop :=
  (g.input_node ≠ g.output_node ∧ g.input_node ≠ -1 ∧ g.output_node ≠ -1) ∧
  (∀ v, v < g.nodes.length → g.reaches g.input_node.toNat v) ∧
  (∀ v, g.reaches g.input_node.toNat v → (v : Int) ≠ g.output_node → g.mapComplete v) ∧
  (∀ u, g.reaches g.input_node.toNat u → ¬ g.cycleAt u)

/-- Visited bit of the DFS state. -/
def visB (st : DfsState) (i : Nat) : Prop :=
  st.visited.getD i false = true

/-- Stack bit of the DFS state. -/
def stkB (st : DfsState) (i : Nat) : Prop :=
  st.stack.getD i false = true

/-- Finished ("black") node: visited and off the stack. -/
def blackB (st : DfsState) (i : Nat) : Prop :=
  visB st i ∧ ¬ stkB st i

/-- The set of visited ids. -/
def visSet (n : Nat) (st : DfsState) : Finset Nat :=
  (Finset.range n).filter fun i => st.visited.getD i false = true

/-- The number of unvisited ids (the DFS termination measure). -/
def unvis (n : Nat) (st : DfsState) : Nat :=
  ((Finset.range n).filter fun i => st.visited.getD i false = false).card

/-- Invariant carried by every `DfsState` of the validation run. -/
structure DfsInv (g : Graph) (st : DfsState) : Prop where
  vlen : st.visited.length = g.nodes.length
  slen : st.stack.length = g.nodes.length
  stackVis : ∀ i, stkB st i → visB st i
  count : st.counter = (visSet g.nodes.length st).card
  closed : ∀ u, blackB st u → ∀ v, g.step u v → blackB st v
  acyc : ∀ u, blackB st u → ¬ g.cycleAt u
  maps : ∀ v, visB st v → (v : Int) = g.output_node ∨ g.mapComplete v

/-- Contract of a successful `check_node` / successor-loop run: the
invariant again, monotone visited and black sets, unchanged stack (as a
set), and every newly visited node reached from one of `srcs`. -/
structure DfsOk (g : Graph) (st st' : DfsState) (srcs : Nat → Prop) : Prop where
  inv : DfsInv g st'
  visMono : ∀ i, visB st i → visB st' i
  blackMono : ∀ i, blackB st i → blackB st' i
  stackEq : ∀ i, stkB st' i ↔ stkB st i
  newVis : ∀ x, visB st' x → visB st x ∨ ∃ a, srcs a ∧ g.reaches a x

/-- Input size of node `u` through the node table. -/
def Graph.inSizeOf (g : Graph) (u : Nat) : Nat :=
  match g.nodes[u]? with
  | some nd => nd.input_size
  | none => 0

/-- `_tokens_count` of node `u` through the node table. -/
def Graph.countOf (g : Graph) (u : Nat) : Int :=
  match g.nodes[u]? with
  | some nd => nd.tokens_count
  | none => 0

/-- `_processed` of node `u` through the node table. -/
def Graph.procOf (g : Graph) (u : Nat) : Bool :=
  match g.nodes[u]? with
  | some nd => nd.processed
  | none => false

/-- Input slot `s` of node `u` through the node table. -/
def Graph.slotOf (g : Graph) (u s : Nat) : Option Token :=
  match g.nodes[u]? with
  | some nd => nd.input_tokens.getD s none
  | none => none

/-- Dependent bit `x` of node `u` through the node table. -/
def Graph.depBit (g : Graph) (u x : Nat) : Bool :=
  match g.nodes[u]? with
  | some nd => nd.dependents.testBit x
  | none => false

/-- Whether a node-adding builder call succeeded. -/
def isOkB (r : Except BuildError (Mdf × Instruction)) : Bool :=
  match r with
  | .ok _ => true
  | .error _ => false

/-- How many entries of an output map target node `t`. -/
def targetsIn (map : List (Nat × Nat)) (t : Nat) : Nat :=
  (map.filter fun e => e.1 == t).length

/-- How many decrements an in-flight job has already applied to node `t`:
the entries of its node's output map minus the entries still pending. -/
def jobDecs (G : Graph) (job : JobState) (t : Nat) : Nat :=
  targetsIn (G.mapOf job.node) t - targetsIn job.remMap t

/-- Total decrements applied so far to node `t`'s `_tokens_count` across all
in-flight jobs. -/
def decsReceived (G : Graph) (s : RunState) (t : Nat) : Nat :=
  (s.jobs.map fun job => jobDecs G job t).sum

/-- How many output-map entries of the whole template target node `t` (an
upper bound for the decrements `t` can ever receive in one run). -/
def Graph.totalWired (G : Graph) (t : Nat) : Nat :=
  ((List.range G.nodes.length).map fun u => targetsIn (G.mapOf u) t).sum

/-- The run-time invariant, relative to the validated template `G` and its
input node id `inp`.  The wiring fields of the instance never change; the
ghost histories tie enqueues to the `_processed` flags (the test-and-set is
the only way a node other than the seeded input node enters the queue), the
queue to the pops, the in-flight jobs to the pops, and the
`_tokens_count` fields to the transfers already performed. -/
structure RunInv (G : Graph) (inp : Nat) (s : RunState) : Prop where
  len : s.inst.nodes.length = G.nodes.length
  maps : ∀ u, s.inst.mapOf u = G.mapOf u
  succs : ∀ u, s.inst.succOf u = G.succOf u
  outs : ∀ u, s.inst.isOut u = G.isOut u
  insz : ∀ u, s.inst.inSizeOf u = G.inSizeOf u
  enqInp : s.enqHist inp = 1
  procInp : s.inst.procOf inp = false
  enqOther : ∀ v, v ≠ inp → s.enqHist v = (if s.inst.procOf v then 1 else 0)
  queueCons : ∀ v, s.enqHist v = s.popHist v + s.queue.count v
  queueRange : ∀ v ∈ s.queue, v < G.nodes.length
  jobsRange : ∀ job ∈ s.jobs, job.node < G.nodes.length
  jobsCount : ∀ u, (s.jobs.filter fun j => j.node == u).length =
    (if G.isOut u then 0 else s.popHist u)
  jobsSucc : ∀ job ∈ s.jobs, ∀ x ∈ job.remSucc, x ∈ G.succOf job.node
  jobsMap : ∀ job ∈ s.jobs, ∃ pre, pre ++ job.remMap = G.mapOf job.node
  counts : ∀ t, s.inst.countOf t = (G.inSizeOf t : Int) - (decsReceived G s t : Int)

/-! Concrete fixtures, built through the embedded builder API. -/

/-- Fallback used when unwrapping builder results in the fixtures below (all
the unwrapped calls are proven to succeed). -/
def dfltIns : Instruction :=
  { node_id := 0, graph_id := 0, last_token := 0, last_output := 0 }

/-- Unwrap a node-adding builder result. -/
def getOk (r : Except BuildError (Mdf × Instruction)) : Mdf × Instruction :=
  match r with
  | .ok x => x
  | .error _ => (Mdf.new 0, dfltIns)

/-- Two-node chain `split(1) → merge(1)`, marked input/output — the minimal
valid template (used by several witnesses). -/
def exChain : Mdf × Instruction × Instruction :=
  let s1 := getOk ((Mdf.new 0).split_node 1)
  let s2 := getOk (s1.1.merge_node 1)
  let m3 := (s2.1.add_output s1.2 (1, 0)).1
  let m4 := (m3.mark_as_input s1.2).1
  let m5 := (m4.mark_as_output s2.2).1
  (m5, s1.2, s2.2)

/-- The chain template after a successful `validate()`. -/
def exChainV : Mdf :=
  (exChain.1.validate).1

/-- A producer and a 33-input consumer with ONLY slot 32 wired — exercises
the multi-word `Bitmask::all_set`. -/
def exMask33 : Mdf × Instruction × Instruction :=
  let s1 := getOk ((Mdf.new 0).split_node 1)
  let s2 := getOk (s1.1.merge_node 33)
  let m3 := (s2.1.add_output s1.2 (1, 32)).1
  (m3, s1.2, s2.2)

/-- `split(2)` and `merge(2)`: target of a `set_output` whose second entry is
a self-loop. -/
def exPartial : Mdf × Instruction × Instruction :=
  let s1 := getOk ((Mdf.new 0).split_node 2)
  let s2 := getOk (s1.1.merge_node 2)
  (s2.1, s1.2, s2.2)

/-- `split(2)` producer with two one-input consumers: the variadic
`send_to(p, c1, c2)` scenario of claim C8. -/
def exFanout : Mdf × Instruction × Instruction × Instruction :=
  let s1 := getOk ((Mdf.new 0).split_node 2)
  let s2 := getOk (s1.1.merge_node 1)
  let s3 := getOk (s2.1.merge_node 1)
  (s3.1, s1.2, s2.2, s3.2)

/-- The template of claim C10: `split(2)` input node 0, `merge(2)` node 1
with ONLY slot 0 wired, `merge(2)` output node 2 fully wired
(`0→(1,0)`, `0→(2,0)`, `1→(2,1)`).  Node 1's slot 1 has no producer, yet
validation accepts the template. -/
def exHalf : Mdf × Instruction × Instruction × Instruction :=
  let s1 := getOk ((Mdf.new 0).split_node 2)
  let s2 := getOk (s1.1.merge_node 2)
  let s3 := getOk (s2.1.merge_node 2)
  let m4 := (s3.1.add_output s1.2 (1, 0)).1
  let m5 := (m4.add_output s1.2 (2, 0)).1
  let m6 := (m5.add_output s2.2 (2, 1)).1
  let m7 := (m6.mark_as_input s1.2).1
  let m8 := (m7.mark_as_output s3.2).1
  (m8, s1.2, s2.2, s3.2)

/-- The seed state of a run of the `exHalf` template on input `7`. -/
def exHalfRun : Option RunState :=
  (Executor.run exHalf.1 [Token.val 7]).2

/-- The seed state of the `exHalf` run, unwrapped (the fallback is never
used: the run succeeds). -/
def exHalfSeed : RunState :=
  (Executor.run exHalf.1 [Token.val 7]).2.getD
    { inst := Graph.empty, queue := [], jobs := [], enqHist := fun _ => 0, popHist := fun _ => 0 }

/-- The retry scenario of claim C2: `split(1)` input node 0 feeding
`split(2)` node 1; `merge(2)` output node 2 fully wired (from node 1 and
from the interior `merge(2)` node 3); node 1's output map left incomplete
(1 of 2), so the first `validate()` fails with `incompleteOutputMap` AFTER
counting nodes 0 and 1. -/
def exRetry0 : Mdf × Instruction × Instruction × Instruction × Instruction :=
  let s1 := getOk ((Mdf.new 0).split_node 1)
  let s2 := getOk (s1.1.split_node 2)
  let s3 := getOk (s2.1.merge_node 2)
  let s4 := getOk (s3.1.merge_node 2)
  let m5 := (s4.1.add_output s1.2 (1, 0)).1
  let m6 := (m5.add_output s2.2 (2, 0)).1
  let m7 := (m6.add_output s4.2 (2, 1)).1
  let m8 := (m7.mark_as_input s1.2).1
  let m9 := (m8.mark_as_output s3.2).1
  (m9, s1.2, s2.2, s3.2, s4.2)

/-- The template after its failed first `validate()`: `_valid` is still
false, but the member `_counter` was left at 2 (nodes 0 and 1 were counted
before the throw). -/
def exRetryFail : Mdf :=
  (exRetry0.1.validate).1

/-- The repaired template: the missing edge `1→(3,0)` is wired, making
node 1's map complete and node 3 reachable, so every specification
condition of claim C2 now holds — but `_counter` is still 2, so the next
`validate()` miscounts. -/
def exRetry : Mdf :=
  (exRetryFail.add_output exRetry0.2.2.1 (3, 0)).1

/-- Length of node `u`'s input-slot vector (0 off the table). -/
def Graph.slotLen (g : Graph) (u : Nat) : Nat :=
  match g.nodes[u]? with
  | some nd => nd.input_tokens.length
  | none => 0

/-- A throw-away node used only as a `getD` default in witnesses. -/
def dfltNode : Node :=
  Node.ofType 0 .split 1

/-! Helper lemmas about the embedding. -/

theorem getD_set_self {α : Type} (l : List α) (i : Nat) (a d : α) (h : i < l.length) :
    (l.set i a).getD i d = a := by
  simp [List.getD, List.getElem?_set, h]

theorem getD_set_diff {α : Type} (l : List α) (i j : Nat) (a d : α) (h : i ≠ j) :
    (l.set i a).getD j d = l.getD j d := by
  simp [List.getD, List.getElem?_set, h]

theorem nodeRead_setNode {β : Type} (g : Graph) (i : Nat) (nd' : Node) (f : Node → β)
    (h : ∀ nd, g.nodes[i]? = some nd → f nd' = f nd) (u : Nat) :
    ((g.setNode i nd').nodes[u]?).map f = (g.nodes[u]?).map f := by
  unfold Graph.setNode
  simp only [List.getElem?_set]
  by_cases hiu : i = u
  · subst hiu
    by_cases hlen : i < g.nodes.length
    · simp only [hlen, if_true, if_pos rfl]
      obtain ⟨nd, hnd⟩ : ∃ nd, g.nodes[i]? = some nd := by
        exact ⟨g.nodes[i], List.getElem?_eq_some.mpr ⟨hlen, rfl⟩⟩
      rw [hnd]
      simp [h nd hnd]
    · rw [List.getElem?_eq_none (by omega)]
      simp [hlen]
  · simp [hiu]

theorem mapOf_eq_read (g : Graph) (u : Nat) :
    g.mapOf u = ((g.nodes[u]?).map fun nd => nd.output_map).getD [] := by
  unfold Graph.mapOf
  cases g.nodes[u]? <;> rfl

theorem succOf_eq_read (g : Graph) (u : Nat) :
    g.succOf u = ((g.nodes[u]?).map fun nd => nd.successors).getD [] := by
  unfold Graph.succOf
  cases g.nodes[u]? <;> rfl

theorem isOut_eq_read (g : Graph) (u : Nat) :
    g.isOut u = ((g.nodes[u]?).map fun nd => nd.is_output).getD false := by
  unfold Graph.isOut
  cases g.nodes[u]? <;> rfl

theorem inSizeOf_eq_read (g : Graph) (u : Nat) :
    g.inSizeOf u = ((g.nodes[u]?).map fun nd => nd.input_size).getD 0 := by
  unfold Graph.inSizeOf
  cases g.nodes[u]? <;> rfl

theorem countOf_eq_read (g : Graph) (u : Nat) :
    g.countOf u = ((g.nodes[u]?).map fun nd => nd.tokens_count).getD 0 := by
  unfold Graph.countOf
  cases g.nodes[u]? <;> rfl

theorem procOf_eq_read (g : Graph) (u : Nat) :
    g.procOf u = ((g.nodes[u]?).map fun nd => nd.processed).getD false := by
  unfold Graph.procOf
  cases g.nodes[u]? <;> rfl

theorem mapOf_setNode (g : Graph) (i : Nat) (nd' : Node)
    (h : ∀ nd, g.nodes[i]? = some nd → nd'.output_map = nd.output_map) (u : Nat) :
    (g.setNode i nd').mapOf u = g.mapOf u := by
  rw [mapOf_eq_read, mapOf_eq_read]
  have := nodeRead_setNode g i nd' (fun nd => nd.output_map) h u
  unfold Graph.setNode at this ⊢
  rw [this]

theorem succOf_setNode (g : Graph) (i : Nat) (nd' : Node)
    (h : ∀ nd, g.nodes[i]? = some nd → nd'.successors = nd.successors) (u : Nat) :
    (g.setNode i nd').succOf u = g.succOf u := by
  rw [succOf_eq_read, succOf_eq_read]
  have := nodeRead_setNode g i nd' (fun nd => nd.successors) h u
  unfold Graph.setNode at this ⊢
  rw [this]

theorem isOut_setNode (g : Graph) (i : Nat) (nd' : Node)
    (h : ∀ nd, g.nodes[i]? = some nd → nd'.is_output = nd.is_output) (u : Nat) :
    (g.setNode i nd').isOut u = g.isOut u := by
  rw [isOut_eq_read, isOut_eq_read]
  have := nodeRead_setNode g i nd' (fun nd => nd.is_output) h u
  unfold Graph.setNode at this ⊢
  rw [this]

theorem inSizeOf_setNode (g : Graph) (i : Nat) (nd' : Node)
    (h : ∀ nd, g.nodes[i]? = some nd → nd'.input_size = nd.input_size) (u : Nat) :
    (g.setNode i nd').inSizeOf u = g.inSizeOf u := by
  rw [inSizeOf_eq_read, inSizeOf_eq_read]
  have := nodeRead_setNode g i nd' (fun nd => nd.input_size) h u
  unfold Graph.setNode at this ⊢
  rw [this]

theorem procOf_setNode (g : Graph) (i : Nat) (nd' : Node)
    (h : ∀ nd, g.nodes[i]? = some nd → nd'.processed = nd.processed) (u : Nat) :
    (g.setNode i nd').procOf u = g.procOf u := by
  rw [procOf_eq_read, procOf_eq_read]
  have := nodeRead_setNode g i nd' (fun nd => nd.processed) h u
  unfold Graph.setNode at this ⊢
  rw [this]

theorem countOf_setNode (g : Graph) (i : Nat) (nd' : Node)
    (h : ∀ nd, g.nodes[i]? = some nd → nd'.tokens_count = nd.tokens_count) (u : Nat) :
    (g.setNode i nd').countOf u = g.countOf u := by
  rw [countOf_eq_read, countOf_eq_read]
  have := nodeRead_setNode g i nd' (fun nd => nd.tokens_count) h u
  unfold Graph.setNode at this ⊢
  rw [this]

theorem length_setNode (g : Graph) (i : Nat) (nd' : Node) :
    (g.setNode i nd').nodes.length = g.nodes.length := by
  unfold Graph.setNode
  simp

theorem addSucc_mapOf (g : Graph) (p v : Nat) (u : Nat) :
    (addSucc g p v).mapOf u = g.mapOf u := by
  unfold addSucc
  cases hp : g.nodes[p]? with
  | none => rfl
  | some pnd =>
    dsimp only
    exact mapOf_setNode g p _ (by intro nd hnd; rw [hp] at hnd; cases hnd; rfl) u

theorem addDep_mapOf (g : Graph) (t tok : Nat) (u : Nat) :
    ((addDep g t tok).1).mapOf u = g.mapOf u := by
  unfold addDep
  cases hn : g.nodes[t]? with
  | none => rfl
  | some tnd =>
    dsimp only
    cases hset : tnd.dependents.set tok with
    | none => rfl
    | some mask' =>
      exact mapOf_setNode g t _ (by intro nd hnd; rw [hn] at hnd; cases hnd; rfl) u

theorem wireEntry_mapOf (g : Graph) (p : Nat) (e : Nat × Nat) (u : Nat) :
    ((wireEntry g p e).1).mapOf u = g.mapOf u := by
  unfold wireEntry
  cases hn : g.nodes[e.1]? with
  | none => rfl
  | some next_node =>
    by_cases h1 : e.2 ≥ next_node.input_size
    · simp [h1]
    · by_cases h2 : e.1 = p
      · simp [h1, h2]
      · simp only [h1, h2, if_false]
        rw [addDep_mapOf, addSucc_mapOf]

theorem wireEntries_mapOf (p : Nat) (l : List (Nat × Nat)) :
    ∀ g u, ((wireEntries g p l).1).mapOf u = g.mapOf u := by
  induction l with
  | nil => intro g u; rfl
  | cons e rest ih =>
    intro g u
    unfold wireEntries
    cases hw : wireEntry g p e with
    | mk g' err =>
      cases err with
      | some e' =>
        simp only
        have := wireEntry_mapOf g p e u
        rw [hw] at this
        exact this
      | none =>
        simp only
        rw [ih g' u]
        have := wireEntry_mapOf g p e u
        rw [hw] at this
        exact this

/-! Claim theorems. -/

/-- Claim C4 (code bug): evaluation of `transfer_tokens` at a one-entry
output map on the cloned two-node chain.  The recorded event trace is
`[dec 1, write 1 0]`: the target's `pending_count` is decremented STRICTLY
BEFORE the token is written into its input slot — the reverse of the order
the claim (and §5 of the spec) requires.  After the call the count has
reached 0 and the slot holds the routed token. -/
theorem claim_C4_transfer_decrements_before_write :
    (exChainV.graph.clone.transfer_tokens [some (Token.val 7)] [(1, 0)]).2.1 =
      [TTEvent.dec 1, TTEvent.write 1 0] ∧
    (exChainV.graph.clone.transfer_tokens [some (Token.val 7)] [(1, 0)]).1.countOf 1 = 0 ∧
    (exChainV.graph.clone.transfer_tokens [some (Token.val 7)] [(1, 0)]).1.slotOf 1 0 =
      some (Token.val 7) ∧
    (exChainV.graph.clone.transfer_tokens [some (Token.val 7)] [(1, 0)]).2.2 = none := by
  exact ⟨by decide, by decide, rfl, by decide⟩

/-- Claim C5 (code bug): `mark_as_output` on a node with `input_size = 33`
whose ONLY wired slot is 32 succeeds — `Bitmask::all_set` never checks the
word holding bits 0–31 (its loop runs to `_array_size - 2` exclusive) — and
records the output marker, although dependent bit 0 is still clear.  The
claim's requirement that every input slot be wired (also for sizes greater
than 32) is violated by the code. -/
theorem claim_C5_mark_as_output_accepts_unwired_slot :
    (exMask33.1.mark_as_output exMask33.2.2).2 = none ∧
    (exMask33.1.mark_as_output exMask33.2.2).1.graph.depBit 1 0 = false ∧
    (exMask33.1.mark_as_output exMask33.2.2).1.graph.depBit 1 32 = true ∧
    (exMask33.1.mark_as_output exMask33.2.2).1.graph.inSizeOf 1 = 33 ∧
    (exMask33.1.mark_as_output exMask33.2.2).1.graph.output_node = 1 ∧
    (exMask33.1.mark_as_output exMask33.2.2).1.graph.isOut 1 = true := by
  exact ⟨by decide, by decide, by decide, by decide, by decide, by decide⟩

/-- Claim C6 (counterexample): after `validate()` has succeeded on the
two-node chain (`valid = true`), `merge_node` still SUCCEEDS and appends a
third node — the node-adding builder operations of the source check only
their size argument, never `_valid`, so the claim that every builder
operation fails after validation is false. -/
theorem claim_C6_counterexample :
    exChainV.valid = true ∧
    isOkB (exChainV.merge_node 1) = true ∧
    (getOk (exChainV.merge_node 1)).1.graph.nodes.length = 3 ∧
    exChainV.graph.nodes.length = 2 := by
  exact ⟨by decide, by decide, by decide, by decide⟩

/-- Claim C6 (amended): after `validate()` has succeeded, the four builder
operations that DO check `_valid` — `set_output`, `add_output`,
`mark_as_input`, `mark_as_output` — fail with the modification error and
leave the template unchanged; the node-adding operations (`merge_node`,
`split_node`, the two `emplace_back` forms) perform no such check. -/
theorem claim_C6_amended (m : Mdf) (ins : Instruction) (om : List (Nat × Nat))
    (pr : Nat × Nat) (h : m.valid = true) :
    m.set_output ins om = (m, some .notModifiable) ∧
    m.add_output ins pr = (m, some .notModifiable) ∧
    m.mark_as_input ins = (m, some .notModifiable) ∧
    m.mark_as_output ins = (m, some .notModifiable) := by
  unfold Mdf.set_output Mdf.add_output Mdf.mark_as_input Mdf.mark_as_output
  simp [h]

/-- Witness for the amended claim C6, at the validated chain template. -/
theorem claim_C6_amended_witness :
    exChainV.valid = true ∧
    exChainV.set_output dfltIns [] = (exChainV, some .notModifiable) ∧
    exChainV.mark_as_output dfltIns = (exChainV, some .notModifiable) := by
  refine ⟨by decide, ?_, ?_⟩
  · exact (claim_C6_amended exChainV dfltIns [] (0, 0) (by decide)).1
  · exact (claim_C6_amended exChainV dfltIns [] (0, 0) (by decide)).2.2.2

/-- Claim C7 (counterexample): `set_output` on the `split(2)` node with map
`[(1,0), (0,0)]` raises the self-loop error on the SECOND entry, but the
successor entry and the dependent bit recorded for the first entry remain in
the template — the claim that a failing builder call leaves the state
unchanged is false. -/
theorem claim_C7_counterexample :
    (exPartial.1.set_output exPartial.2.1 [(1, 0), (0, 0)]).2 = some .selfLoop ∧
    (exPartial.1.set_output exPartial.2.1 [(1, 0), (0, 0)]).1.graph.succOf 0 = [1] ∧
    (exPartial.1.set_output exPartial.2.1 [(1, 0), (0, 0)]).1.graph.depBit 1 0 = true ∧
    exPartial.1.graph.succOf 0 = [] ∧
    exPartial.1.graph.depBit 1 0 = false := by
  exact ⟨by decide, by decide, by decide, by decide, by decide⟩

/-- Claim C7 (amended): a failing `set_output` or `add_output` leaves every
node's OUTPUT MAP unchanged (the map itself is only installed after all
entries are wired, resp. appended after the entry is wired), but the
successor entries and dependent bits recorded for entries processed before
the error remain in the template. -/
theorem claim_C7_amended :
    (∀ (m : Mdf) (ins : Instruction) (om : List (Nat × Nat)) (u : Nat),
      (m.set_output ins om).2.isSome →
      (m.set_output ins om).1.graph.mapOf u = m.graph.mapOf u) ∧
    (∀ (m : Mdf) (ins : Instruction) (pr : Nat × Nat) (u : Nat),
      (m.add_output ins pr).2.isSome →
      (m.add_output ins pr).1.graph.mapOf u = m.graph.mapOf u) := by
  constructor
  · intro m ins om u herr
    unfold Mdf.set_output at herr ⊢
    by_cases hv : m.valid
    · simp [hv]
    · simp only [hv, if_false] at herr ⊢
      by_cases hg : m.graph_id ≠ ins.graph_id
      · simp [hg]
      · simp only [hg, if_false] at herr ⊢
        cases hn : m.graph.nodes[ins.node_id]? with
        | none => simp
        | some nd =>
          simp only [hn] at herr ⊢
          by_cases h1 : nd.output_map.length > 0
          · simp [h1]
          · simp only [h1, if_false] at herr ⊢
            by_cases h2 : om.length ≠ nd.output_size
            · simp [h2]
            · simp only [h2, if_false] at herr ⊢
              cases hw : wireEntries m.graph ins.node_id om with
              | mk g' err =>
                cases err with
                | some e =>
                  simp only
                  have := wireEntries_mapOf ins.node_id om m.graph u
                  rw [hw] at this
                  exact this
                | none =>
                  simp only [hw] at herr
                  cases hn2 : g'.nodes[ins.node_id]? with
                  | some nd' => simp [hn2] at herr
                  | none =>
                    simp only [hn2]
                    have h3 := wireEntries_mapOf ins.node_id om m.graph u
                    rw [hw] at h3
                    exact h3
  · intro m ins pr u herr
    unfold Mdf.add_output at herr ⊢
    by_cases hv : m.valid
    · simp [hv]
    · simp only [hv, if_false] at herr ⊢
      by_cases hg : m.graph_id ≠ ins.graph_id
      · simp [hg]
      · simp only [hg, if_false] at herr ⊢
        cases hn : m.graph.nodes[ins.node_id]? with
        | none => simp
        | some nd =>
          simp only [hn] at herr ⊢
          by_cases h1 : nd.output_map.length ≥ nd.output_size
          · simp [h1]
          · simp only [h1, if_false] at herr ⊢
            cases hw : wireEntry m.graph ins.node_id pr with
            | mk g' err =>
              cases err with
              | some e =>
                simp only
                have := wireEntry_mapOf m.graph ins.node_id pr u
                rw [hw] at this
                exact this
              | none =>
                simp only [hw] at herr
                cases hn2 : g'.nodes[ins.node_id]? with
                | some nd' => simp [hn2] at herr
                | none =>
                  simp only [hn2]
                  have h3 := wireEntry_mapOf m.graph ins.node_id pr u
                  rw [hw] at h3
                  exact h3

/-- Witness for the amended claim C7: the failing `set_output` of the
counterexample left node 0's output map empty. -/
theorem claim_C7_amended_witness :
    (exPartial.1.set_output exPartial.2.1 [(1, 0), (0, 0)]).2.isSome = true ∧
    (exPartial.1.set_output exPartial.2.1 [(1, 0), (0, 0)]).1.graph.mapOf 0 =
      exPartial.1.graph.mapOf 0 := by
  exact ⟨by decide,
    claim_C7_amended.1 exPartial.1 exPartial.2.1 [(1, 0), (0, 0)] 0 (by decide)⟩

theorem div32_lt (x n : Nat) (h : x < n) : x / 32 < (n + 31) / 32 := by
  omega

theorem and_two_pow_ne_zero_iff (w k : Nat) : (w &&& (1 <<< k) ≠ 0) ↔ w.testBit k = true := by
  rw [Nat.shiftLeft_eq, one_mul, Nat.and_two_pow]
  cases h : w.testBit k
  · simp
  · simp [(Nat.two_pow_pos k).ne.symm]

theorem testBit_eq_nat_testBit (b : Bitmask) (x : Nat) :
    b.testBit x = (b.words.getD (x / 32) 0).testBit (x % 32) := by
  unfold Bitmask.testBit
  by_cases h : (b.words.getD (x / 32) 0).testBit (x % 32) = true
  · rw [decide_eq_true ((and_two_pow_ne_zero_iff _ _).mpr h)]
    exact h.symm
  · have hne : ¬ (b.words.getD (x / 32) 0 &&& (1 <<< (x % 32)) ≠ 0) :=
      fun hc => h ((and_two_pow_ne_zero_iff _ _).mp hc)
    rw [decide_eq_false hne]
    simp only [Bool.not_eq_true] at h
    exact h.symm

theorem Bitmask.set_spec (b : Bitmask) (x : Nat)
    (hx : x / 32 < b.words.length) (hbit : b.testBit x = false) :
    ∃ b', b.set x = some b' ∧
      b'.words.length = b.words.length ∧
      b'.n = b.n ∧ b'.lastMask = b.lastMask ∧
      ∀ y, b'.testBit y = (b.testBit y || x == y) := by
  have hcond : ¬ (b.words.getD (x / 32) 0 &&& (1 <<< (x % 32)) ≠ 0) := by
    intro hc
    unfold Bitmask.testBit at hbit
    rw [decide_eq_true hc] at hbit
    exact Bool.noConfusion hbit
  refine ⟨{ b with words := b.words.set (x / 32) (b.words.getD (x / 32) 0 ||| (1 <<< (x % 32))) },
    ?_, by simp, rfl, rfl, ?_⟩
  · unfold Bitmask.set
    rw [if_neg hcond]
  · intro y
    rw [testBit_eq_nat_testBit, testBit_eq_nat_testBit]
    dsimp only
    by_cases hb : y / 32 = x / 32
    · rw [hb, getD_set_self _ _ _ _ hx]
      rw [Nat.shiftLeft_eq, one_mul, Nat.testBit_or, Nat.testBit_two_pow]
      by_cases hy : x = y
      · subst hy
        simp
      · have hxy : (x == y) = false := by
          simp [hy]
        have hmd : ¬ (x % 32 = y % 32) := by omega
        rw [hxy, decide_eq_false hmd]
    · have hss : x / 32 ≠ y / 32 := fun h => hb h.symm
      rw [getD_set_diff _ _ _ _ _ hss]
      have hxy : (x == y) = false := by
        have : x ≠ y := fun h => hb (by rw [h])
        simp [this]
      rw [hxy]
      simp

theorem setNode_get_self (g : Graph) (i : Nat) (nd : Node) (h : i < g.nodes.length) :
    (g.setNode i nd).nodes[i]? = some nd := by
  unfold Graph.setNode
  simp [List.getElem?_set, h]

theorem setNode_get_other (g : Graph) (i j : Nat) (nd : Node) (h : i ≠ j) :
    (g.setNode i nd).nodes[j]? = g.nodes[j]? := by
  unfold Graph.setNode
  simp [List.getElem?_set, h]

theorem add_output_ok (m : Mdf) (ins : Instruction) (tgt tok : Nat) (nd tnd : Node)
    (hv : m.valid = false)
    (hgid : ins.graph_id = m.graph_id)
    (hnd : m.graph.nodes[ins.node_id]? = some nd)
    (hroom : nd.output_map.length < nd.output_size)
    (htnd : m.graph.nodes[tgt]? = some tnd)
    (htok : tok < tnd.input_size)
    (hne : tgt ≠ ins.node_id)
    (hword : tok / 32 < tnd.dependents.words.length)
    (hbit : tnd.dependents.testBit tok = false) :
    ∃ mask', tnd.dependents.set tok = some mask' ∧
      mask'.words.length = tnd.dependents.words.length ∧
      (∀ y, mask'.testBit y = (tnd.dependents.testBit y || tok == y)) ∧
      (m.add_output ins (tgt, tok)).2 = none ∧
      (m.add_output ins (tgt, tok)).1.valid = false ∧
      (m.add_output ins (tgt, tok)).1.graph_id = m.graph_id ∧
      (m.add_output ins (tgt, tok)).1.graph.nodes.length = m.graph.nodes.length ∧
      (m.add_output ins (tgt, tok)).1.graph.nodes[ins.node_id]? =
        some { nd with successors := addSuccessorList nd.successors tgt,
                       output_map := nd.output_map ++ [(tgt, tok)] } ∧
      (m.add_output ins (tgt, tok)).1.graph.nodes[tgt]? =
        some { tnd with dependents := mask' } ∧
      (∀ u, u ≠ ins.node_id → u ≠ tgt →
        (m.add_output ins (tgt, tok)).1.graph.nodes[u]? = m.graph.nodes[u]?) := by
  obtain ⟨mask', hset, hlen, hn', hlm, hspec⟩ := Bitmask.set_spec tnd.dependents tok hword hbit
  have hinslt : ins.node_id < m.graph.nodes.length := (List.getElem?_eq_some.mp hnd).1
  have htgtlt : tgt < m.graph.nodes.length := (List.getElem?_eq_some.mp htnd).1
  have hlenS : (addSucc m.graph ins.node_id tgt).nodes.length = m.graph.nodes.length := by
    unfold addSucc
    rw [hnd]
    exact length_setNode _ _ _
  have hndS : (addSucc m.graph ins.node_id tgt).nodes[ins.node_id]? =
      some { nd with successors := addSuccessorList nd.successors tgt } := by
    unfold addSucc
    rw [hnd]
    exact setNode_get_self _ _ _ hinslt
  have hndT : (addSucc m.graph ins.node_id tgt).nodes[tgt]? = some tnd := by
    unfold addSucc
    rw [hnd]
    rw [setNode_get_other _ _ _ _ (fun h => hne (Eq.symm h))]
    exact htnd
  have hother : ∀ u, u ≠ ins.node_id → u ≠ tgt →
      (addSucc m.graph ins.node_id tgt).nodes[u]? = m.graph.nodes[u]? := by
    intro u hu1 hu2
    unfold addSucc
    rw [hnd]
    exact setNode_get_other _ _ _ _ (fun h => hu1 (Eq.symm h))
  have hwire : wireEntry m.graph ins.node_id (tgt, tok) =
      ((addSucc m.graph ins.node_id tgt).setNode tgt { tnd with dependents := mask' }, none) := by
    unfold wireEntry
    rw [htnd]
    dsimp only
    rw [if_neg (by omega), if_neg hne]
    unfold addDep
    rw [hndT]
    dsimp only
    rw [hset]
  have hG2len : ((addSucc m.graph ins.node_id tgt).setNode tgt
      { tnd with dependents := mask' }).nodes.length = m.graph.nodes.length := by
    rw [length_setNode, hlenS]
  have hmid : ((addSucc m.graph ins.node_id tgt).setNode tgt
      { tnd with dependents := mask' }).nodes[ins.node_id]? =
      some { nd with successors := addSuccessorList nd.successors tgt } := by
    rw [setNode_get_other _ _ _ _ hne]
    exact hndS
  have hres : m.add_output ins (tgt, tok) =
      ({ m with graph :=
          (((addSucc m.graph ins.node_id tgt).setNode tgt
            { tnd with dependents := mask' }).setNode ins.node_id
              { nd with successors := addSuccessorList nd.successors tgt,
                        output_map := nd.output_map ++ [(tgt, tok)] }) }, none) := by
    unfold Mdf.add_output
    rw [if_neg (by simp [hv]), if_neg (by simp [hgid]), hnd]
    dsimp only
    rw [if_neg (by omega), hwire]
    dsimp only
    rw [hmid]
  refine ⟨mask', hset, hlen, hspec, by rw [hres], by rw [hres]; exact hv, by rw [hres], ?_, ?_, ?_, ?_⟩
  · rw [hres]
    dsimp only
    rw [length_setNode, hG2len]
  · rw [hres]
    dsimp only
    exact setNode_get_self _ _ _ (by rw [hG2len]; exact hinslt)
  · rw [hres]
    dsimp only
    rw [setNode_get_other _ _ _ _ (fun h => hne (Eq.symm h))]
    rw [setNode_get_self _ _ _ (by rw [hlenS]; exact htgtlt)]
  · intro u hu1 hu2
    rw [hres]
    dsimp only
    rw [setNode_get_other _ _ _ _ (fun h => hu1 (Eq.symm h))]
    rw [setNode_get_other _ _ _ _ (fun h => hu2 (Eq.symm h))]
    exact hother u hu1 hu2

theorem sendToLoop_ok (r : Nat) :
    ∀ (m : Mdf) (ins : Instruction) (tgt : Nat) (nd tnd : Node),
    m.valid = false →
    ins.graph_id = m.graph_id →
    m.graph.nodes[ins.node_id]? = some nd →
    m.graph.nodes[tgt]? = some tnd →
    tgt ≠ ins.node_id →
    nd.output_map.length + r ≤ nd.output_size →
    (∀ i, i < r → ins.last_output + i < tnd.input_size) →
    (∀ i, i < r → tnd.dependents.testBit (ins.last_output + i) = false) →
    tnd.dependents.words.length = (tnd.input_size + 31) / 32 →
    ∃ nd',
      (m.sendToLoop ins tgt r).2 = none ∧
      (m.sendToLoop ins tgt r).1.2.last_output = ins.last_output + r ∧
      (m.sendToLoop ins tgt r).1.1.graph.nodes[ins.node_id]? = some nd' ∧
      nd'.output_map = nd.output_map ++
        (List.range r).map (fun i => (tgt, ins.last_output + i)) := by
  induction r with
  | zero =>
    intro m ins tgt nd tnd hv hgid hnd htnd hne hroom hslots hdeps hwords
    exact ⟨nd, rfl, rfl, hnd, by simp⟩
  | succ r ih =>
    intro m ins tgt nd tnd hv hgid hnd htnd hne hroom hslots hdeps hwords
    obtain ⟨mask', hset, hmlen, hmspec, herr, hv1, hgid1, hglen, hndA, htndA, hothA⟩ :=
      add_output_ok m { ins with last_output := ins.last_output + 1 } tgt ins.last_output nd tnd
        hv hgid hnd (by omega) htnd (by have := hslots 0 (by omega); omega) hne
        (by rw [hwords]; exact div32_lt _ _ (by have := hslots 0 (by omega); omega))
        (by have := hdeps 0 (by omega); simpa using this)
    unfold Mdf.sendToLoop
    dsimp only
    cases hadd : Mdf.add_output m { ins with last_output := ins.last_output + 1 }
        (tgt, ins.last_output) with
    | mk m1 err =>
      rw [hadd] at herr hv1 hgid1 hndA htndA
      dsimp only at herr
      subst herr
      dsimp only
      obtain ⟨nd', hrec1, hrec2, hrec3, hrec4⟩ :=
        ih m1 { ins with last_output := ins.last_output + 1 } tgt
          { nd with successors := addSuccessorList nd.successors tgt,
                    output_map := nd.output_map ++ [(tgt, ins.last_output)] }
          { tnd with dependents := mask' }
          hv1 (by rw [hgid1]; exact hgid) hndA htndA hne
          (by simp; omega)
          (by intro i hi; have := hslots (i + 1) (by omega); simp; omega)
          (by
            intro i hi
            have h1 := hmspec (ins.last_output + 1 + i)
            have h2 := hdeps (i + 1) (by omega)
            have h3 : (ins.last_output == ins.last_output + 1 + i) = false := by
              simp
              omega
            simp only
            rw [h1, h3]
            have h4 : ins.last_output + (i + 1) = ins.last_output + 1 + i := by omega
            rw [h4] at h2
            rw [h2]
            rfl)
          (by simp [hmlen, hwords])
      refine ⟨nd', hrec1, ?_, hrec3, ?_⟩
      · rw [hrec2]
        dsimp only
        omega
      · rw [hrec4]
        dsimp only
        rw [List.append_assoc]
        congr 1
        rw [List.range_succ_eq_map, List.map_cons, List.map_map]
        rw [List.singleton_append]
        have h5 : ∀ a : Nat, ins.last_output + 1 + a = ins.last_output + (a + 1) := by
          intro a
          omega
        simp [Function.comp, h5]

/-- Claim C8 (counterexample): the variadic `send_to` of a two-output
producer to two one-input consumers raises `SlotOutOfRange` instead of
wiring the second consumer: the single-consumer loop runs `output_size`
times per consumer with the producer-handle cursor as the CONSUMER slot
index, so the second iteration already targets slot 1 of the one-input
first consumer.  Only `[(1, 0)]` was wired and the cursor was advanced to 2;
the claim's predicted wiring (first consumer slot 0, second consumer slot 0)
never happens. -/
theorem claim_C8_counterexample :
    (exFanout.1.send_to exFanout.2.1 [exFanout.2.2.1, exFanout.2.2.2]).2 =
      some .slotOutOfRange ∧
    (exFanout.1.send_to exFanout.2.1 [exFanout.2.2.1, exFanout.2.2.2]).1.1.graph.mapOf 0 =
      [(1, 0)] ∧
    (exFanout.1.send_to exFanout.2.1 [exFanout.2.2.1, exFanout.2.2.2]).1.2.last_output = 2 ∧
    exFanout.1.graph.mapOf 2 = [] ∧
    exFanout.1.graph.inSizeOf 1 = 1 := by
  exact ⟨by decide, by decide, by decide, by decide, by decide⟩

/-- Claim C8 (amended): the single-consumer `send_to(p, c)` consumes the
producer's outputs in order, wiring the i-th output to CONSUMER SLOT
`_last_output + i` (the cursor of the producer handle, which advances by
`output_size` and never resets); and because every call loops `output_size`
times, any `send_to` issued when the producer's output map is already full —
the second consumer of a variadic call, or a successive call after a
successful one — fails with the map-full error instead of continuing the
assignment. -/
theorem claim_C8_amended :
    (∀ (m : Mdf) (ins other : Instruction) (nd tnd : Node),
      m.valid = false →
      ins.graph_id = m.graph_id →
      other.graph_id = ins.graph_id →
      m.graph.nodes[ins.node_id]? = some nd →
      m.graph.nodes[other.node_id]? = some tnd →
      other.node_id ≠ ins.node_id →
      nd.output_map = [] →
      (∀ i, i < nd.output_size → ins.last_output + i < tnd.input_size) →
      (∀ i, i < nd.output_size → tnd.dependents.testBit (ins.last_output + i) = false) →
      tnd.dependents.words.length = (tnd.input_size + 31) / 32 →
      (m.send_to1 ins other).2 = none ∧
      (m.send_to1 ins other).1.1.graph.mapOf ins.node_id =
        (List.range nd.output_size).map (fun i => (other.node_id, ins.last_output + i)) ∧
      (m.send_to1 ins other).1.2.last_output = ins.last_output + nd.output_size) ∧
    (∀ (m : Mdf) (ins other : Instruction) (nd : Node),
      m.valid = false →
      ins.graph_id = m.graph_id →
      other.graph_id = ins.graph_id →
      m.graph.nodes[ins.node_id]? = some nd →
      1 ≤ nd.output_size →
      nd.output_size ≤ nd.output_map.length →
      (m.send_to1 ins other).2 = some .mapFull) := by
  constructor
  · intro m ins other nd tnd hv hgid hsame hnd htnd hne hmap0 hslots hdeps hwords
    have hsz : m.outputSizeOf ins = nd.output_size := by
      unfold Mdf.outputSizeOf Mdf.nodeOf
      rw [hnd]
    have hgr : ¬ (ins.graph_id ≠ other.graph_id) := by
      rw [hsame]
      simp
    obtain ⟨nd', h1, h2, h3, h4⟩ :=
      sendToLoop_ok nd.output_size m ins other.node_id nd tnd hv hgid hnd htnd hne
        (by rw [hmap0]; simp) hslots hdeps hwords
    unfold Mdf.send_to1
    rw [if_neg hgr, hsz]
    refine ⟨h1, ?_, h2⟩
    rw [mapOf_eq_read, h3]
    simp [h4, hmap0]
  · intro m ins other nd hv hgid hsame hnd hpos hfull
    have hsz : m.outputSizeOf ins = nd.output_size := by
      unfold Mdf.outputSizeOf Mdf.nodeOf
      rw [hnd]
    have hgr : ¬ (ins.graph_id ≠ other.graph_id) := by
      rw [hsame]
      simp
    unfold Mdf.send_to1
    rw [if_neg hgr, hsz]
    obtain ⟨k, hk⟩ : ∃ k, nd.output_size = k + 1 := ⟨nd.output_size - 1, by omega⟩
    rw [hk]
    unfold Mdf.sendToLoop
    dsimp only
    unfold Mdf.add_output
    rw [if_neg (by simp [hv]), if_neg (by simp [hgid]), hnd]
    dsimp only
    rw [if_pos (by omega)]

/-- Witness for the amended claim C8: `send_to` from the `split(2)` producer
to the single `merge(2)` consumer wires slots 0 and 1 in order and leaves
the cursor at 2. -/
theorem claim_C8_amended_witness :
    (exPartial.1.send_to1 exPartial.2.1 exPartial.2.2).2 = none ∧
    (exPartial.1.send_to1 exPartial.2.1 exPartial.2.2).1.1.graph.mapOf 0 = [(1, 0), (1, 1)] ∧
    (exPartial.1.send_to1 exPartial.2.1 exPartial.2.2).1.2.last_output = 2 := by
  have h := claim_C8_amended.1 exPartial.1 exPartial.2.1 exPartial.2.2
    (Node.ofType 0 .split 2) (Node.ofType 1 .merge 2)
    rfl rfl rfl rfl rfl (by decide) rfl
    (by decide) (by decide) (by decide)
  exact ⟨h.1, h.2.1.trans (by decide), h.2.2.trans (by decide)⟩

theorem clone_get (g : Graph) (u : Nat) :
    g.clone.nodes[u]? = (g.nodes[u]?).map Node.instanceCopy := by
  unfold Graph.clone
  simp

theorem countOf_clone (g : Graph) (u : Nat) : g.clone.countOf u = (g.inSizeOf u : Int) := by
  rw [countOf_eq_read, inSizeOf_eq_read, clone_get]
  cases g.nodes[u]? <;> simp [Node.instanceCopy]

theorem procOf_clone (g : Graph) (u : Nat) : g.clone.procOf u = false := by
  rw [procOf_eq_read, clone_get]
  cases g.nodes[u]? <;> simp [Node.instanceCopy]

theorem inSizeOf_clone (g : Graph) (u : Nat) : g.clone.inSizeOf u = g.inSizeOf u := by
  rw [inSizeOf_eq_read, inSizeOf_eq_read, clone_get]
  cases g.nodes[u]? <;> simp [Node.instanceCopy]

theorem countOf_sit (g : Graph) (args : List Token) (u : Nat) :
    (g.send_input_tokens args).countOf u = g.countOf u := by
  unfold Graph.send_input_tokens
  cases hn : g.nodes[g.input_node.toNat]? with
  | none => rfl
  | some nd =>
    dsimp only
    exact countOf_setNode g _ _ (by intro nd' hnd'; rw [hn] at hnd'; cases hnd'; rfl) u

theorem procOf_sit (g : Graph) (args : List Token) (u : Nat) :
    (g.send_input_tokens args).procOf u = g.procOf u := by
  unfold Graph.send_input_tokens
  cases hn : g.nodes[g.input_node.toNat]? with
  | none => rfl
  | some nd =>
    dsimp only
    exact procOf_setNode g _ _ (by intro nd' hnd'; rw [hn] at hnd'; cases hnd'; rfl) u

theorem writeArgsFrom_length (args : List Token) :
    ∀ (slots : TokenVec) (k : Nat), (writeArgsFrom slots args k).length = slots.length := by
  induction args with
  | nil => intro slots k; rfl
  | cons a rest ih =>
    intro slots k
    unfold writeArgsFrom
    rw [ih]
    simp

theorem writeArgsFrom_lower (args : List Token) :
    ∀ (slots : TokenVec) (k p : Nat), p < k →
      (writeArgsFrom slots args k).getD p none = slots.getD p none := by
  induction args with
  | nil => intro slots k p hp; rfl
  | cons a rest ih =>
    intro slots k p hp
    unfold writeArgsFrom
    rw [ih _ (k + 1) p (by omega)]
    exact getD_set_diff _ _ _ _ _ (by omega)

theorem writeArgsFrom_get (args : List Token) :
    ∀ (slots : TokenVec) (k j : Nat), j < args.length → k + j < slots.length →
      (writeArgsFrom slots args k).getD (k + j) none = args[j]? := by
  induction args with
  | nil =>
    intro slots k j hj
    exact absurd hj (by simp)
  | cons a rest ih =>
    intro slots k j hj hlen
    unfold writeArgsFrom
    cases j with
    | zero =>
      simp only [Nat.add_zero]
      rw [writeArgsFrom_lower rest _ (k + 1) k (by omega)]
      rw [getD_set_self _ _ _ _ (by omega)]
      simp
    | succ j' =>
      have hkj : k + (j' + 1) = (k + 1) + j' := by omega
      rw [hkj]
      rw [ih (slots.set k (some a)) (k + 1) j' (by simpa using hj) (by simp; omega)]
      simp

/-- Claim C3 (counterexample): at the moment `run` enqueues the seed job for
the `exHalf` template, the queue holds the input node 0 while its
`pending_count` is still 1 (= its `input_size`, NOT cleared to zero) and its
`fired` flag is still clear (NOT set): `Executor::run` only fills the input
slots and enqueues. -/
theorem claim_C3_counterexample :
    (exHalfRun.map fun s => (s.queue, s.inst.countOf 0, s.inst.procOf 0)) =
      some ([0], 1, false) ∧
    exHalf.1.graph.inSizeOf 0 = 1 := by
  exact ⟨by decide, by decide⟩

theorem check_graph_fields (g : Graph) :
    (g.check_graph).1.nodes = g.nodes ∧ (g.check_graph).1.input_node = g.input_node ∧
      (g.check_graph).1.output_node = g.output_node := by
  unfold Graph.check_graph
  by_cases hmk : g.input_node = g.output_node ∨ g.input_node = -1 ∨ g.output_node = -1
  · rw [if_pos hmk]
    exact ⟨rfl, rfl, rfl⟩
  · rw [if_neg hmk]
    dsimp only
    cases g.check_node (g.nodes.length + 1) { visited := List.replicate g.nodes.length false, stack := List.replicate g.nodes.length false, counter := g.counter } g.input_node.toNat with
    | mk stR o =>
      cases o with
      | some e => exact ⟨rfl, rfl, rfl⟩
      | none =>
        dsimp only
        by_cases hcnt : stR.counter ≠ g.nodes.length
        · rw [if_pos hcnt]
          exact ⟨rfl, rfl, rfl⟩
        · rw [if_neg hcnt]
          exact ⟨rfl, rfl, rfl⟩

theorem validate_fields (m : Mdf) :
    (m.validate).1.graph.nodes = m.graph.nodes ∧
    (m.validate).1.graph.input_node = m.graph.input_node ∧
    (m.validate).1.graph.output_node = m.graph.output_node := by
  unfold Mdf.validate
  by_cases hv : m.valid
  · rw [if_pos hv]
    exact ⟨rfl, rfl, rfl⟩
  · rw [if_neg hv]
    have h := check_graph_fields m.graph
    cases hcg : m.graph.check_graph with
    | mk gR o =>
      rw [hcg] at h
      cases o with
      | some e => exact h
      | none => exact h

/-- Claim C3 (amended): a successful `run(template, args…)` on an
un-validated template seeds a fresh instance whose input node has its input
slots filled from the arguments in order, and enqueues exactly the job
`(instance, input_node_id)`; but it touches neither the input node's
`pending_count` (left at `input_size`) nor its `fired` flag (left clear). -/
theorem claim_C3_amended (m : Mdf) (args : List Token) (r : Mdf × Option BuildError)
    (s : RunState)
    (hv : m.valid = false)
    (hiwf : m.graph.inputWF)
    (hrun : Executor.run m args = (r, some s)) :
    s.queue = [m.graph.input_node.toNat] ∧
    s.inst.countOf m.graph.input_node.toNat = (m.graph.inSizeOf m.graph.input_node.toNat : Int) ∧
    s.inst.procOf m.graph.input_node.toNat = false ∧
    (∀ j, j < args.length → j < m.graph.inSizeOf m.graph.input_node.toNat →
      s.inst.slotOf m.graph.input_node.toNat j = args[j]?) ∧
    s.jobs = [] ∧
    s.enqHist m.graph.input_node.toNat = 1 := by
  unfold Executor.run at hrun
  cases hval : m.validate with
  | mk m' e =>
    rw [hval] at hrun
    cases e with
    | some e' =>
      dsimp only at hrun
      exact absurd (congrArg Prod.snd hrun) (by simp)
    | none =>
      dsimp only at hrun
      have hf := validate_fields m
      rw [hval] at hf
      dsimp only at hf
      have hcl : m'.graph.clone = m.graph.clone := by
        unfold Graph.clone
        rw [hf.1, hf.2.1, hf.2.2]
      have hin : m'.graph.input_node = m.graph.input_node := hf.2.1
      have hmk : ¬ (m.graph.input_node = m.graph.output_node ∨
          m.graph.input_node = -1 ∨ m.graph.output_node = -1) := by
        unfold Mdf.validate at hval
        rw [if_neg (by simp [hv])] at hval
        unfold Graph.check_graph at hval
        intro hmk
        rw [if_pos hmk] at hval
        exact absurd (congrArg Prod.snd hval) (by simp)
      have hs : s = { inst := m'.graph.clone.send_input_tokens args,
                      queue := [m'.graph.input_node.toNat],
                      jobs := [],
                      enqHist := fun v => if v = m'.graph.input_node.toNat then 1 else 0,
                      popHist := fun _ => 0 } := by
        have := congrArg Prod.snd hrun
        dsimp only at this
        exact (Option.some_inj.mp this).symm
      have hinplt : m.graph.input_node.toNat < m.graph.nodes.length := by
        rcases hiwf with h1 | h2
        · exact absurd h1 (by tauto)
        · exact h2.2
      refine ⟨by rw [hs, hin], ?_, ?_, ?_, by rw [hs], by rw [hs, hin]; simp⟩
      · rw [hs, hcl]
        rw [countOf_sit, countOf_clone]
      · rw [hs, hcl]
        rw [procOf_sit, procOf_clone]
      · intro j hj1 hj2
        rw [hs, hcl]
        obtain ⟨nd, hnd⟩ : ∃ nd, m.graph.nodes[m.graph.input_node.toNat]? = some nd :=
          ⟨m.graph.nodes[m.graph.input_node.toNat], List.getElem?_eq_some.mpr ⟨hinplt, rfl⟩⟩
        have hclget : m.graph.clone.nodes[m.graph.input_node.toNat]? =
            some (Node.instanceCopy nd) := by
          rw [clone_get, hnd]
          rfl
        unfold Graph.send_input_tokens
        have hclinp : m.graph.clone.input_node = m.graph.input_node := by
          unfold Graph.clone
          rfl
        rw [hclinp, hclget]
        dsimp only
        unfold Graph.slotOf
        rw [setNode_get_self _ _ _ (by
          unfold Graph.clone
          simp
          exact hinplt)]
        dsimp only [Node.instanceCopy]
        have hsz : nd.input_size = m.graph.inSizeOf m.graph.input_node.toNat := by
          rw [inSizeOf_eq_read, hnd]
          rfl
        have := writeArgsFrom_get args (List.replicate nd.input_size none) 0 j hj1
          (by simp [hsz]; omega)
        simpa using this

/-- Witness for the amended claim C3, at the `exHalf` run on input `7`. -/
theorem claim_C3_amended_witness :
    exHalfSeed.queue = [0] ∧
    exHalfSeed.inst.countOf 0 = 1 ∧
    exHalfSeed.inst.procOf 0 = false ∧
    exHalfSeed.inst.slotOf 0 0 = some (Token.val 7) := by
  have h := claim_C3_amended exHalf.1 [Token.val 7]
    (Executor.run exHalf.1 [Token.val 7]).1 exHalfSeed rfl (Or.inr ⟨by decide, by decide⟩) rfl
  refine ⟨h.1.trans (by decide), h.2.1.trans (by decide), h.2.2.1, ?_⟩
  have := h.2.2.2.1 0 (by decide) (by decide)
  exact this.trans rfl

theorem option_getD_restore {α : Type} (o : Option α) (d : α) (h : o.isSome = true) :
    o = some (o.getD d) := by
  cases o with
  | none => exact Bool.noConfusion h
  | some a => rfl

theorem slotOf_eq_read (g : Graph) (u s : Nat) :
    g.slotOf u s = ((g.nodes[u]?).map fun nd => nd.input_tokens.getD s none).getD none := by
  unfold Graph.slotOf
  cases g.nodes[u]? <;> rfl

theorem slotLen_eq_read (g : Graph) (u : Nat) :
    g.slotLen u = ((g.nodes[u]?).map fun nd => nd.input_tokens.length).getD 0 := by
  unfold Graph.slotLen
  cases g.nodes[u]? <;> rfl

theorem slotOf_decCount (g : Graph) (t u s : Nat) :
    (g.decCount t).slotOf u s = g.slotOf u s := by
  unfold Graph.decCount
  cases hn : g.nodes[t]? with
  | none => rfl
  | some nd =>
    dsimp only
    rw [slotOf_eq_read, slotOf_eq_read]
    have := nodeRead_setNode g t { nd with tokens_count := nd.tokens_count - 1 }
      (fun nd => nd.input_tokens.getD s none)
      (by intro nd' hnd'; rw [hn] at hnd'; cases hnd'; rfl) u
    unfold Graph.setNode at this ⊢
    rw [this]

theorem slotLen_decCount (g : Graph) (t u : Nat) :
    (g.decCount t).slotLen u = g.slotLen u := by
  unfold Graph.decCount
  cases hn : g.nodes[t]? with
  | none => rfl
  | some nd =>
    dsimp only
    rw [slotLen_eq_read, slotLen_eq_read]
    have := nodeRead_setNode g t { nd with tokens_count := nd.tokens_count - 1 }
      (fun nd => nd.input_tokens.length)
      (by intro nd' hnd'; rw [hn] at hnd'; cases hnd'; rfl) u
    unfold Graph.setNode at this ⊢
    rw [this]

theorem slotLen_writeSlot (g : Graph) (t' s' : Nat) (o : Option Token) (u : Nat) :
    (g.writeSlot t' s' o).slotLen u = g.slotLen u := by
  unfold Graph.writeSlot
  cases hn : g.nodes[t']? with
  | none => rfl
  | some nd =>
    dsimp only
    rw [slotLen_eq_read, slotLen_eq_read]
    have := nodeRead_setNode g t' { nd with input_tokens := nd.input_tokens.set s' o }
      (fun nd => nd.input_tokens.length)
      (by intro nd' hnd'; rw [hn] at hnd'; cases hnd'; simp) u
    unfold Graph.setNode at this ⊢
    rw [this]

theorem length_decCount (g : Graph) (t : Nat) :
    (g.decCount t).nodes.length = g.nodes.length := by
  unfold Graph.decCount
  cases g.nodes[t]? with
  | none => rfl
  | some nd => exact length_setNode _ _ _

theorem length_writeSlot (g : Graph) (t s : Nat) (o : Option Token) :
    (g.writeSlot t s o).nodes.length = g.nodes.length := by
  unfold Graph.writeSlot
  cases g.nodes[t]? with
  | none => rfl
  | some nd => exact length_setNode _ _ _

theorem slotOf_writeSlot_same_val (g : Graph) (t' s' t s : Nat) (x : Option Token)
    (h : g.slotOf t s = x) : (g.writeSlot t' s' x).slotOf t s = x := by
  unfold Graph.writeSlot
  cases hn : g.nodes[t']? with
  | none => exact h
  | some nd =>
    dsimp only
    by_cases ht : t' = t
    · subst ht
      rw [slotOf_eq_read, setNode_get_self _ _ _ (List.getElem?_eq_some.mp hn).1]
      rw [slotOf_eq_read, hn] at h
      simp only [Option.map_some', Option.getD_some] at h ⊢
      by_cases hs : s' = s
      · subst hs
        by_cases hlen : s' < nd.input_tokens.length
        · rw [getD_set_self _ _ _ _ hlen]
        · rw [List.set_eq_of_length_le (by omega)]
          exact h
      · rw [getD_set_diff _ _ _ _ _ hs]
        exact h
    · rw [slotOf_eq_read]
      rw [setNode_get_other _ _ _ _ ht]
      rw [slotOf_eq_read] at h
      exact h

theorem slotOf_writeSlot_hit (g : Graph) (t s : Nat) (x : Option Token) (nd : Node)
    (hn : g.nodes[t]? = some nd) (hs : s < nd.input_tokens.length) :
    (g.writeSlot t s x).slotOf t s = x := by
  unfold Graph.writeSlot
  rw [hn]
  dsimp only
  rw [slotOf_eq_read, setNode_get_self _ _ _ (List.getElem?_eq_some.mp hn).1]
  simp only [Option.map_some', Option.getD_some]
  exact getD_set_self _ _ _ _ hs

theorem transfer_replicate_preserves (map : List (Nat × Nat)) :
    ∀ (g : Graph) (mlen : Nat) (x : Option Token) (t s : Nat),
      g.slotOf t s = x →
      ((g.transfer_tokens (List.replicate mlen x) map).1).slotOf t s = x := by
  induction map with
  | nil =>
    intro g mlen x t s h
    unfold Graph.transfer_tokens
    exact h
  | cons e rest ih =>
    intro g mlen x t s h
    unfold Graph.transfer_tokens
    cases e with
    | mk t' s' =>
      by_cases hlt : t' < g.nodes.length
      · rw [if_pos hlt]
        cases mlen with
        | zero =>
          dsimp only [List.replicate]
          rw [slotOf_decCount]
          exact h
        | succ m' =>
          dsimp only [List.replicate]
          have h1 : (g.decCount t').slotOf t s = x := by rw [slotOf_decCount]; exact h
          have h2 : ((g.decCount t').writeSlot t' s' x).slotOf t s = x :=
            slotOf_writeSlot_same_val _ _ _ _ _ _ h1
          exact ih _ m' x t s h2
      · rw [if_neg hlt]
        exact h

theorem transfer_replicate_writes (map : List (Nat × Nat)) :
    ∀ (g : Graph) (mlen : Nat) (x : Option Token),
      map.length ≤ mlen →
      (∀ e ∈ map, e.1 < g.nodes.length ∧ e.2 < g.slotLen e.1) →
      ((g.transfer_tokens (List.replicate mlen x) map).2.2 = none) ∧
      (∀ e ∈ map, ((g.transfer_tokens (List.replicate mlen x) map).1).slotOf e.1 e.2 = x) := by
  induction map with
  | nil =>
    intro g mlen x hlen htgt
    unfold Graph.transfer_tokens
    exact ⟨rfl, by intro e he; cases he⟩
  | cons e rest ih =>
    intro g mlen x hlen htgt
    obtain ⟨t', s'⟩ := e
    obtain ⟨hlt, hsl⟩ := htgt (t', s') (by simp)
    obtain ⟨m', hm⟩ : ∃ m', mlen = m' + 1 := ⟨mlen - 1, by simp at hlen; omega⟩
    subst hm
    unfold Graph.transfer_tokens
    rw [if_pos hlt]
    dsimp only [List.replicate]
    set g2 := (g.decCount t').writeSlot t' s' x with hg2
    have hrest := ih g2 m' x (by simp at hlen ⊢; omega) (by
      intro e he
      obtain ⟨h1, h2⟩ := htgt e (by simp [he])
      constructor
      · rw [hg2, length_writeSlot, length_decCount]
        exact h1
      · rw [hg2, slotLen_writeSlot, slotLen_decCount]
        exact h2)
    refine ⟨hrest.1, ?_⟩
    intro e he
    rcases List.mem_cons.mp he with heq | hmem
    · subst heq
      apply transfer_replicate_preserves
      rw [hg2]
      obtain ⟨nd1, hnd1⟩ : ∃ nd1, (g.decCount t').nodes[t']? = some nd1 := by
        cases hx : (g.decCount t').nodes[t']? with
        | some nd1 => exact ⟨nd1, rfl⟩
        | none =>
          have := List.getElem?_eq_none_iff.mp hx
          rw [length_decCount] at this
          omega
      apply slotOf_writeSlot_hit _ _ _ _ _ hnd1
      have := slotLen_decCount g t' t'
      rw [slotLen_eq_read, hnd1] at this
      simp only [Option.map_some', Option.getD_some] at this
      rw [this]
      exact hsl
    · exact hrest.2 e hmem

/-- Claim C9 (confirmed): firing a SPLIT node yields an output vector of
length `output_size` whose every entry is the node's single input token
`input_slots[0]`, and routing that vector through the node's output map
delivers that same token into every wired target slot. -/
theorem claim_C9 (g : Graph) (u : Nat) (nd : Node)
    (hnd : g.nodes[u]? = some nd)
    (htype : nd.type = .split)
    (hmaplen : nd.output_map.length ≤ nd.output_size)
    (htgt : ∀ e ∈ nd.output_map, e.1 < g.nodes.length ∧ e.2 < g.slotLen e.1) :
    nd.execute = List.replicate nd.output_size (nd.input_tokens.getD 0 none) ∧
    (g.transfer_tokens nd.execute nd.output_map).2.2 = none ∧
    (∀ e ∈ nd.output_map,
      ((g.transfer_tokens nd.execute nd.output_map).1).slotOf e.1 e.2 =
        nd.input_tokens.getD 0 none) := by
  have hex : nd.execute = List.replicate nd.output_size (nd.input_tokens.getD 0 none) := by
    unfold Node.execute
    rw [htype]
  have h := transfer_replicate_writes nd.output_map g nd.output_size
    (nd.input_tokens.getD 0 none) hmaplen htgt
  rw [hex]
  exact ⟨rfl, h.1, h.2⟩

/-- Witness for claim C9: in the seeded `exHalf` instance, firing the SPLIT
input node and routing its outputs lands the argument token `7` in slot 0 of
node 1 and slot 0 of node 2. -/
theorem claim_C9_witness :
    ((exHalfSeed.inst.transfer_tokens (exHalfSeed.inst.nodes[0]?.getD dfltNode).execute
        (exHalfSeed.inst.nodes[0]?.getD dfltNode).output_map).1).slotOf 1 0 =
      some (Token.val 7) ∧
    ((exHalfSeed.inst.transfer_tokens (exHalfSeed.inst.nodes[0]?.getD dfltNode).execute
        (exHalfSeed.inst.nodes[0]?.getD dfltNode).output_map).1).slotOf 2 0 =
      some (Token.val 7) := by
  have h := claim_C9 exHalfSeed.inst 0 (exHalfSeed.inst.nodes[0]?.getD dfltNode)
    (option_getD_restore _ _ (by decide)) (by decide) (by decide) (by decide)
  exact ⟨(h.2.2 (1, 0) (by decide)).trans rfl, (h.2.2 (2, 0) (by decide)).trans rfl⟩

/-! Equation lemmas for the validation DFS. -/

theorem check_node_zero (g : Graph) (st : DfsState) (id : Nat) :
    g.check_node 0 st id = (st, some .outOfFuel) := rfl

theorem check_node_succ_eq (g : Graph) (fuel : Nat) (st : DfsState) (id : Nat) :
    g.check_node (fuel + 1) st id =
      if st.visited.getD id false then ({ st with stack := st.stack.set id false }, none)
      else
        match g.nodes[id]? with
        | none => ({ visited := st.visited.set id true, stack := st.stack.set id true, counter := st.counter + 1 }, some .indexOutOfRange)
        | some nd =>
          if (id : Int) ≠ g.output_node ∧ nd.output_map.length ≠ nd.output_size then
            ({ visited := st.visited.set id true, stack := st.stack.set id true, counter := st.counter + 1 }, some .incompleteOutputMap)
          else
            match g.check_adj fuel ({ visited := st.visited.set id true, stack := st.stack.set id true, counter := st.counter + 1 }, none) nd.successors with
            | (stE, some e) => (stE, some e)
            | (st2, none) => ({ st2 with stack := st2.stack.set id false }, none) := rfl

theorem check_adj_nil (g : Graph) (fuel : Nat) (r : DfsResult) :
    g.check_adj fuel r [] = r := rfl

theorem check_adj_cons_ok (g : Graph) (fuel : Nat) (st : DfsState) (a : Nat) (l : List Nat) :
    g.check_adj fuel (st, none) (a :: l) =
      g.check_adj fuel
        (if ¬ st.visited.getD a false then g.check_node fuel st a
         else if st.stack.getD a false then (st, some .cycleDetected)
         else (st, none)) l := rfl

theorem check_adj_error (g : Graph) (fuel : Nat) (l : List Nat) :
    ∀ stE e, g.check_adj fuel (stE, some e) l = (stE, some e) := by
  induction l with
  | nil => intro stE e; rfl
  | cons a rest ih =>
    intro stE e
    unfold Graph.check_adj
    rw [List.foldl_cons]
    exact ih stE e

/-! State-manipulation lemmas for the DFS invariants. -/

theorem visB_mark (st : DfsState) (id : Nat) (s2 : List Bool) (c2 : Nat)
    (hid : id < st.visited.length) (x : Nat) :
    visB { visited := st.visited.set id true, stack := s2, counter := c2 } x ↔
      (visB st x ∨ x = id) := by
  unfold visB
  dsimp only
  by_cases hx : x = id
  · subst hx
    rw [getD_set_self _ _ _ _ hid]
    simp
  · rw [getD_set_diff _ _ _ _ _ (fun h => hx h.symm)]
    simp [hx]

theorem stkB_mark (st : DfsState) (id : Nat) (v2 : List Bool) (c2 : Nat)
    (hid : id < st.stack.length) (x : Nat) :
    stkB { visited := v2, stack := st.stack.set id true, counter := c2 } x ↔
      (stkB st x ∨ x = id) := by
  unfold stkB
  dsimp only
  by_cases hx : x = id
  · subst hx
    rw [getD_set_self _ _ _ _ hid]
    simp
  · rw [getD_set_diff _ _ _ _ _ (fun h => hx h.symm)]
    simp [hx]

theorem stkB_clear (st : DfsState) (id : Nat) (hid : id < st.stack.length) (x : Nat) :
    stkB { st with stack := st.stack.set id false } x ↔ (stkB st x ∧ x ≠ id) := by
  unfold stkB
  dsimp only
  by_cases hx : x = id
  · subst hx
    rw [getD_set_self _ _ _ _ hid]
    simp
  · rw [getD_set_diff _ _ _ _ _ (fun h => hx h.symm)]
    simp [hx]

theorem visB_lt (g : Graph) (st : DfsState) (hinv : st.visited.length = g.nodes.length)
    (x : Nat) (h : visB st x) : x < g.nodes.length := by
  unfold visB at h
  by_cases hx : x < st.visited.length
  · omega
  · have hn : st.visited.get? x = none := List.get?_eq_none.mpr (by omega)
    rw [List.getD, hn] at h
    exact absurd h (by simp)

theorem visSet_mark (n : Nat) (st : DfsState) (id : Nat) (s2 : List Bool) (c2 : Nat)
    (hid : id < st.visited.length) (hn : id < n) :
    visSet n { visited := st.visited.set id true, stack := s2, counter := c2 } =
      insert id (visSet n st) := by
  unfold visSet
  ext x
  simp only [Finset.mem_filter, Finset.mem_range, Finset.mem_insert]
  by_cases hx : x = id
  · subst hx
    rw [getD_set_self _ _ _ _ hid]
    simp [hn]
  · rw [getD_set_diff _ _ _ _ _ (fun h => hx h.symm)]
    tauto

theorem visSet_stack_irrel (n : Nat) (v : List Bool) (s1 s2 : List Bool) (c1 c2 : Nat) :
    visSet n { visited := v, stack := s1, counter := c1 } =
      visSet n { visited := v, stack := s2, counter := c2 } := rfl

theorem unvis_stack_irrel (n : Nat) (v : List Bool) (s1 s2 : List Bool) (c1 c2 : Nat) :
    unvis n { visited := v, stack := s1, counter := c1 } =
      unvis n { visited := v, stack := s2, counter := c2 } := rfl

theorem unvis_mark (n : Nat) (st : DfsState) (id : Nat) (s2 : List Bool) (c2 : Nat)
    (hid : id < st.visited.length) (hn : id < n) (hfresh : ¬ visB st id) :
    unvis n { visited := st.visited.set id true, stack := s2, counter := c2 } + 1 =
      unvis n st := by
  unfold unvis
  have hset : ((Finset.range n).filter fun i =>
      (st.visited.set id true).getD i false = false) =
      ((Finset.range n).filter fun i => st.visited.getD i false = false).erase id := by
    ext x
    simp only [Finset.mem_filter, Finset.mem_range, Finset.mem_erase]
    by_cases hx : x = id
    · subst hx
      rw [getD_set_self _ _ _ _ hid]
      simp
    · rw [getD_set_diff _ _ _ _ _ (fun h => hx h.symm)]
      tauto
  rw [hset]
  have hmem : id ∈ (Finset.range n).filter fun i => st.visited.getD i false = false := by
    simp only [Finset.mem_filter, Finset.mem_range]
    unfold visB at hfresh
    simp only [Bool.not_eq_true] at hfresh
    exact ⟨hn, hfresh⟩
  rw [Finset.card_erase_of_mem hmem]
  have := Finset.card_pos.mpr ⟨id, hmem⟩
  omega

theorem unvis_mono (n : Nat) (st st' : DfsState)
    (h : ∀ i, visB st i → visB st' i) :
    unvis n st' ≤ unvis n st := by
  unfold unvis
  apply Finset.card_le_card
  intro x hx
  simp only [Finset.mem_filter, Finset.mem_range] at hx ⊢
  refine ⟨hx.1, ?_⟩
  by_cases hv : st.visited.getD x false = false
  · exact hv
  · have : visB st x := by
      unfold visB
      simpa using hv
    have := h x this
    unfold visB at this
    rw [this] at hx
    exact absurd hx.2 (by simp)

theorem black_closed_reach (g : Graph) (st : DfsState)
    (hcl : ∀ u, blackB st u → ∀ v, g.step u v → blackB st v) :
    ∀ w z, Relation.ReflTransGen g.step w z → blackB st w → blackB st z := by
  intro w z hwz
  induction hwz with
  | refl => exact fun h => h
  | tail hstep hlast ih =>
    intro hw
    exact hcl _ (ih hw) _ hlast

theorem DfsOk.comp (g : Graph) (st st1 st2 : DfsState)
    (s1 s2 s3 : Nat → Prop)
    (h1 : DfsOk g st st1 s1) (h2 : DfsOk g st1 st2 s2)
    (hs : ∀ x, ((∃ a, s1 a ∧ g.reaches a x) ∨ (∃ a, s2 a ∧ g.reaches a x)) →
      ∃ a, s3 a ∧ g.reaches a x) :
    DfsOk g st st2 s3 := by
  refine ⟨h2.inv, ?_, ?_, ?_, ?_⟩
  · intro i hi
    exact h2.visMono i (h1.visMono i hi)
  · intro i hi
    exact h2.blackMono i (h1.blackMono i hi)
  · intro i
    rw [h2.stackEq i, h1.stackEq i]
  · intro x hx
    rcases h2.newVis x hx with hx1 | ⟨a, ha, har⟩
    · rcases h1.newVis x hx1 with hx0 | ⟨a, ha, har⟩
      · exact Or.inl hx0
      · exact Or.inr (hs x (Or.inl ⟨a, ha, har⟩))
    · exact Or.inr (hs x (Or.inr ⟨a, ha, har⟩))

theorem step_of_mem (g : Graph) (u v : Nat) (nd : Node)
    (hnd : g.nodes[u]? = some nd) (hv : v ∈ nd.successors) : g.step u v := by
  unfold Graph.step Graph.succOf
  rw [hnd]
  exact hv

theorem mem_of_step (g : Graph) (u v : Nat) (nd : Node)
    (hnd : g.nodes[u]? = some nd) (hs : g.step u v) : v ∈ nd.successors := by
  unfold Graph.step Graph.succOf at hs
  rw [hnd] at hs
  exact hs

theorem dfs_master (g : Graph) (root : Nat) (hwf : g.succWF) : ∀ fuel : Nat,
    (∀ st id, DfsInv g st → unvis g.nodes.length st < fuel → ¬ visB st id →
      id < g.nodes.length →
      g.reaches root id →
      (∀ x, stkB st x → Relation.ReflTransGen g.step x id) →
      (∀ x, stkB st x → g.reaches root x) →
      ((∃ st', g.check_node fuel st id = (st', none) ∧
          DfsOk g st st' (fun a => a = id) ∧ blackB st' id) ∨
       (∃ stE, g.check_node fuel st id = (stE, some .cycleDetected) ∧
         ∃ u, g.reaches root u ∧ g.cycleAt u) ∨
       (∃ stE, g.check_node fuel st id = (stE, some .incompleteOutputMap) ∧
         ∃ v, g.reaches root v ∧ (v : Int) ≠ g.output_node ∧ ¬ g.mapComplete v))) ∧
    (∀ st cur adjs, DfsInv g st → unvis g.nodes.length st < fuel →
      stkB st cur →
      (∀ a ∈ adjs, g.step cur a) →
      (∀ x, stkB st x → Relation.ReflTransGen g.step x cur) →
      (∀ x, stkB st x → g.reaches root x) →
      ((∃ st', g.check_adj fuel (st, none) adjs = (st', none) ∧
          DfsOk g st st' (fun a => a ∈ adjs) ∧ (∀ a ∈ adjs, blackB st' a)) ∨
       (∃ stE, g.check_adj fuel (st, none) adjs = (stE, some .cycleDetected) ∧
         ∃ u, g.reaches root u ∧ g.cycleAt u) ∨
       (∃ stE, g.check_adj fuel (st, none) adjs = (stE, some .incompleteOutputMap) ∧
         ∃ v, g.reaches root v ∧ (v : Int) ≠ g.output_node ∧ ¬ g.mapComplete v))) := by
  intro fuel
  induction fuel with
  | zero =>
    constructor
    · intro st id hinv hfuel
      exact absurd hfuel (by omega)
    · intro st cur adjs hinv hfuel
      exact absurd hfuel (by omega)
  | succ fuel ih =>
    obtain ⟨ihMN, ihMA⟩ := ih
    have hMN : ∀ st id, DfsInv g st → unvis g.nodes.length st < fuel + 1 → ¬ visB st id →
        id < g.nodes.length →
        g.reaches root id →
        (∀ x, stkB st x → Relation.ReflTransGen g.step x id) →
        (∀ x, stkB st x → g.reaches root x) →
        ((∃ st', g.check_node (fuel + 1) st id = ((st' : DfsState), none) ∧
            DfsOk g st st' (fun a => a = id) ∧ blackB st' id) ∨
         (∃ stE, g.check_node (fuel + 1) st id = (stE, some .cycleDetected) ∧
           ∃ u, g.reaches root u ∧ g.cycleAt u) ∨
         (∃ stE, g.check_node (fuel + 1) st id = (stE, some .incompleteOutputMap) ∧
           ∃ v, g.reaches root v ∧ (v : Int) ≠ g.output_node ∧ ¬ g.mapComplete v)) := by
      intro st id hinv hfuel hvis hid hreach hctx1 hctx2
      rw [check_node_succ_eq]
      rw [if_neg (by unfold visB at hvis; simpa using hvis)]
      cases hnd : g.nodes[id]? with
      | none =>
        exact absurd (List.getElem?_eq_none_iff.mp hnd) (by omega)
      | some nd =>
        dsimp only
        by_cases hmap : ((id : Int) ≠ g.output_node ∧ nd.output_map.length ≠ nd.output_size)
        · rw [if_pos hmap]
          refine Or.inr (Or.inr ⟨_, rfl, id, hreach, hmap.1, ?_⟩)
          intro hmc
          exact hmap.2 (hmc nd hnd)
        · rw [if_neg hmap]
          have hidv : id < st.visited.length := by rw [hinv.vlen]; exact hid
          have hids : id < st.stack.length := by rw [hinv.slen]; exact hid
          have hinv1 : DfsInv g { visited := st.visited.set id true, stack := st.stack.set id true, counter := st.counter + 1 } := by
            refine ⟨by simp [hinv.vlen], by simp [hinv.slen], ?_, ?_, ?_, ?_, ?_⟩
            · intro x hx
              rcases (stkB_mark st id _ _ hids x).mp hx with h | h
              · exact (visB_mark st id _ _ hidv x).mpr (Or.inl (hinv.stackVis x h))
              · exact (visB_mark st id _ _ hidv x).mpr (Or.inr h)
            · dsimp only
              rw [visSet_mark _ st id _ _ hidv hid]
              rw [Finset.card_insert_of_not_mem (by
                unfold visSet
                simp only [Finset.mem_filter, Finset.mem_range, not_and]
                intro h1 h2
                unfold visB at hvis
                exact hvis h2)]
              rw [hinv.count]
            · intro u hu v hstep
              have hune : u ≠ id := by
                intro h
                apply hu.2
                rw [h]
                exact (stkB_mark st id _ _ hids id).mpr (Or.inr rfl)
              have hub : blackB st u := by
                refine ⟨?_, ?_⟩
                · rcases (visB_mark st id _ _ hidv u).mp hu.1 with h | h
                  · exact h
                  · exact absurd h hune
                · intro h
                  exact hu.2 ((stkB_mark st id _ _ hids u).mpr (Or.inl h))
              have hvb := hinv.closed u hub v hstep
              have hvne : v ≠ id := by
                intro h
                subst h
                exact hvis hvb.1
              refine ⟨(visB_mark st id _ _ hidv v).mpr (Or.inl hvb.1), ?_⟩
              intro h
              rcases (stkB_mark st id _ _ hids v).mp h with h2 | h2
              · exact hvb.2 h2
              · exact hvne h2
            · intro u hu
              have hune : u ≠ id := by
                intro h
                apply hu.2
                rw [h]
                exact (stkB_mark st id _ _ hids id).mpr (Or.inr rfl)
              have hub : blackB st u := by
                refine ⟨?_, ?_⟩
                · rcases (visB_mark st id _ _ hidv u).mp hu.1 with h | h
                  · exact h
                  · exact absurd h hune
                · intro h
                  exact hu.2 ((stkB_mark st id _ _ hids u).mpr (Or.inl h))
              exact hinv.acyc u hub
            · intro v hv
              rcases (visB_mark st id _ _ hidv v).mp hv with h | h
              · exact hinv.maps v h
              · subst h
                rcases Decidable.not_and_iff_or_not.mp hmap with h2 | h2
                · exact Or.inl (Decidable.not_not.mp h2)
                · refine Or.inr ?_
                  intro nd' hnd'
                  rw [hnd] at hnd'
                  cases hnd'
                  exact Decidable.not_not.mp h2
          have hfuel1 : unvis g.nodes.length { visited := st.visited.set id true, stack := st.stack.set id true, counter := st.counter + 1 } < fuel := by
            have := unvis_mark g.nodes.length st id (st.stack.set id true) (st.counter + 1)
              hidv hid hvis
            omega
          have hstk1 : stkB { visited := st.visited.set id true, stack := st.stack.set id true, counter := st.counter + 1 } id :=
            (stkB_mark st id _ _ hids id).mpr (Or.inr rfl)
          have hedges : ∀ a ∈ nd.successors, g.step id a := fun a ha => step_of_mem g id a nd hnd ha
          have hctx1' : ∀ x, stkB { visited := st.visited.set id true, stack := st.stack.set id true, counter := st.counter + 1 } x →
              Relation.ReflTransGen g.step x id := by
            intro x hx
            rcases (stkB_mark st id _ _ hids x).mp hx with h | h
            · exact hctx1 x h
            · subst h
              exact Relation.ReflTransGen.refl
          have hctx2' : ∀ x, stkB { visited := st.visited.set id true, stack := st.stack.set id true, counter := st.counter + 1 } x →
              g.reaches root x := by
            intro x hx
            rcases (stkB_mark st id _ _ hids x).mp hx with h | h
            · exact hctx2 x h
            · subst h
              exact hreach
          rcases ihMA { visited := st.visited.set id true, stack := st.stack.set id true, counter := st.counter + 1 } id nd.successors
              hinv1 hfuel1 hstk1 hedges hctx1' hctx2' with
            ⟨st2, hok, bnd, hblacks⟩ | ⟨stE, herr, hw⟩ | ⟨stE, herr, hw⟩
          · rw [hok]
            dsimp only
            have hids2 : id < st2.stack.length := by rw [bnd.inv.slen]; exact hid
            have hstk2id : stkB st2 id := (bnd.stackEq id).mpr hstk1
            have hvis2id : visB st2 id :=
              bnd.visMono id ((visB_mark st id _ _ hidv id).mpr (Or.inr rfl))
            have hblack' : ∀ x, blackB st2 x → blackB { st2 with stack := st2.stack.set id false } x := by
              intro x hx
              refine ⟨hx.1, ?_⟩
              intro h
              exact hx.2 ((stkB_clear st2 id hids2 x).mp h).1
            refine Or.inl ⟨{ st2 with stack := st2.stack.set id false }, rfl, ⟨?_, ?_, ?_, ?_, ?_⟩, ?_⟩
            · -- DfsInv of the final state
              refine ⟨bnd.inv.vlen, by simp [bnd.inv.slen], ?_, bnd.inv.count, ?_, ?_, bnd.inv.maps⟩
              · intro x hx
                exact bnd.inv.stackVis x ((stkB_clear st2 id hids2 x).mp hx).1
              · -- closed
                intro u hu v hstep
                by_cases hui : u = id
                · subst hui
                  have hvsucc : v ∈ nd.successors := mem_of_step g u v nd hnd hstep
                  exact hblack' v (hblacks v hvsucc)
                · have hu2 : blackB st2 u := by
                    refine ⟨hu.1, ?_⟩
                    intro h
                    exact hu.2 ((stkB_clear st2 id hids2 u).mpr ⟨h, hui⟩)
                  exact hblack' v (bnd.inv.closed u hu2 v hstep)
              · -- acyclic
                intro u hu
                by_cases hui : u = id
                · subst hui
                  intro hcyc
                  obtain ⟨w, hw, hwu⟩ := Relation.TransGen.head'_iff.mp hcyc
                  have hwsucc : w ∈ nd.successors := mem_of_step g u w nd hnd hw
                  have hwb : blackB st2 w := hblacks w hwsucc
                  have : blackB st2 u := black_closed_reach g st2 bnd.inv.closed w u hwu hwb
                  exact this.2 hstk2id
                · have hu2 : blackB st2 u := by
                    refine ⟨hu.1, ?_⟩
                    intro h
                    exact hu.2 ((stkB_clear st2 id hids2 u).mpr ⟨h, hui⟩)
                  exact bnd.inv.acyc u hu2
            · -- visMono
              intro x hx
              exact bnd.visMono x ((visB_mark st id _ _ hidv x).mpr (Or.inl hx))
            · -- blackMono
              intro x hx
              have hxne : x ≠ id := by
                intro h
                subst h
                exact hvis hx.1
              have hx1 : blackB { visited := st.visited.set id true, stack := st.stack.set id true, counter := st.counter + 1 } x := by
                refine ⟨(visB_mark st id _ _ hidv x).mpr (Or.inl hx.1), ?_⟩
                intro h
                rcases (stkB_mark st id _ _ hids x).mp h with h2 | h2
                · exact hx.2 h2
                · exact hxne h2
              exact hblack' x (bnd.blackMono x hx1)
            · -- stackEq
              intro x
              rw [stkB_clear st2 id hids2 x]
              constructor
              · intro ⟨h1, h2⟩
                rcases (stkB_mark st id _ _ hids x).mp ((bnd.stackEq x).mp h1) with h3 | h3
                · exact h3
                · exact absurd h3 h2
              · intro h
                have hxne : x ≠ id := by
                  intro he
                  subst he
                  exact hvis (hinv.stackVis x h)
                exact ⟨(bnd.stackEq x).mpr ((stkB_mark st id _ _ hids x).mpr (Or.inl h)), hxne⟩
            · -- newVis
              intro x hx
              rcases bnd.newVis x hx with h | ⟨a, ha, har⟩
              · rcases (visB_mark st id _ _ hidv x).mp h with h2 | h2
                · exact Or.inl h2
                · subst h2
                  exact Or.inr ⟨x, rfl, Relation.ReflTransGen.refl⟩
              · exact Or.inr ⟨id, rfl, Relation.ReflTransGen.head (step_of_mem g id a nd hnd ha) har⟩
            · -- the id node is black afterwards
              refine ⟨hvis2id, ?_⟩
              intro h
              have := (stkB_clear st2 id hids2 id).mp h
              exact this.2 rfl
          · rw [herr]
            exact Or.inr (Or.inl ⟨stE, rfl, hw⟩)
          · rw [herr]
            exact Or.inr (Or.inr ⟨stE, rfl, hw⟩)
    refine ⟨hMN, ?_⟩
    intro st cur adjs
    induction adjs generalizing st with
    | nil =>
      intro hinv hfuel hstk hedges hctx1 hctx2
      rw [check_adj_nil]
      exact Or.inl ⟨st, rfl,
        ⟨hinv, fun i h => h, fun i h => h, fun i => Iff.rfl, fun x hx => Or.inl hx⟩,
        by intro a ha; cases ha⟩
    | cons a rest ihl =>
      intro hinv hfuel hstk hedges hctx1 hctx2
      rw [check_adj_cons_ok]
      by_cases hva : visB st a
      · rw [if_neg (by unfold visB at hva; exact not_not_intro hva)]
        by_cases hsa : stkB st a
        · rw [if_pos (by unfold stkB at hsa; exact hsa)]
          rw [check_adj_error]
          exact Or.inr (Or.inl ⟨st, rfl, a, hctx2 a hsa,
            Relation.TransGen.tail' (hctx1 a hsa) (hedges a (by simp))⟩)
        · rw [if_neg (by unfold stkB at hsa; exact hsa)]
          rcases ihl st hinv hfuel hstk (fun x hx => hedges x (by simp [hx])) hctx1 hctx2 with
            ⟨st', hok, bnd, hbl⟩ | ⟨stE, herr, hw⟩ | ⟨stE, herr, hw⟩
          · refine Or.inl ⟨st', hok, ?_, ?_⟩
            · refine ⟨bnd.inv, bnd.visMono, bnd.blackMono, bnd.stackEq, ?_⟩
              intro x hx
              rcases bnd.newVis x hx with h | ⟨a', ha', har⟩
              · exact Or.inl h
              · exact Or.inr ⟨a', by simp [ha'], har⟩
            · intro a' ha'
              rcases List.mem_cons.mp ha' with h | h
              · rw [h]
                exact bnd.blackMono a ⟨hva, hsa⟩
              · exact hbl a' h
          · exact Or.inr (Or.inl ⟨stE, herr, hw⟩)
          · exact Or.inr (Or.inr ⟨stE, herr, hw⟩)
      · rw [if_pos (by unfold visB at hva; exact hva)]
        have hcura : g.step cur a := hedges a (by simp)
        have hreacha : g.reaches root a :=
          Relation.ReflTransGen.tail (hctx2 cur hstk) hcura
        rcases hMN st a hinv hfuel hva (hwf cur a hcura) hreacha
            (fun x hx => Relation.ReflTransGen.tail (hctx1 x hx) hcura)
            hctx2 with ⟨st1, hok, bnd, hba⟩ | ⟨stE, herr, hw⟩ | ⟨stE, herr, hw⟩
        · rw [hok]
          rcases ihl st1 bnd.inv
              (by have := unvis_mono g.nodes.length st st1 bnd.visMono; omega)
              ((bnd.stackEq cur).mpr hstk)
              (fun x hx => hedges x (by simp [hx]))
              (fun x hx => hctx1 x ((bnd.stackEq x).mp hx))
              (fun x hx => hctx2 x ((bnd.stackEq x).mp hx)) with
            ⟨st2, hok2, bnd2, hbl2⟩ | ⟨stE2, herr2, hw2⟩ | ⟨stE2, herr2, hw2⟩
          · refine Or.inl ⟨st2, hok2, ?_, ?_⟩
            · apply DfsOk.comp g st st1 st2 (fun x => x = a) (fun x => x ∈ rest) _ bnd bnd2
              intro x hx
              rcases hx with ⟨a', ha', har⟩ | ⟨a', ha', har⟩
              · exact ⟨a', by simp [ha'], har⟩
              · exact ⟨a', by simp [ha'], har⟩
            · intro a' ha'
              rcases List.mem_cons.mp ha' with h | h
              · rw [h]
                exact bnd2.blackMono a hba
              · exact hbl2 a' h
          · exact Or.inr (Or.inl ⟨stE2, herr2, hw2⟩)
          · exact Or.inr (Or.inr ⟨stE2, herr2, hw2⟩)
        · rw [herr, check_adj_error]
          exact Or.inr (Or.inl ⟨stE, rfl, hw⟩)
        · rw [herr, check_adj_error]
          exact Or.inr (Or.inr ⟨stE, rfl, hw⟩)

theorem getD_replicate (n x : Nat) (b : Bool) : (List.replicate n b).getD x b = b := by
  by_cases hx : x < n
  · rw [List.getD, List.get?_eq_getElem?, List.getElem?_replicate]
    simp [hx]
  · rw [List.getD, List.get?_eq_getElem?, List.getElem?_eq_none (by simp; omega)]
    rfl

theorem getD_replicate_false (n x : Nat) : (List.replicate n false).getD x false = false :=
  getD_replicate n x false

theorem fresh_inv (g : Graph) : DfsInv g
    { visited := List.replicate g.nodes.length false,
      stack := List.replicate g.nodes.length false, counter := 0 } := by
  refine ⟨by simp, by simp, ?_, ?_, ?_, ?_, ?_⟩
  · intro x hx
    unfold stkB at hx
    rw [getD_replicate_false] at hx
    exact Bool.noConfusion hx
  · unfold visSet
    rw [Finset.filter_eq_empty_iff.mpr ?_]
    · rfl
    · intro x hx
      rw [getD_replicate_false]
      simp
  · intro u hu
    unfold blackB visB at hu
    rw [getD_replicate_false] at hu
    exact absurd hu.1 (by simp)
  · intro u hu
    unfold blackB visB at hu
    rw [getD_replicate_false] at hu
    exact absurd hu.1 (by simp)
  · intro v hv
    unfold visB at hv
    rw [getD_replicate_false] at hv
    exact absurd hv (by simp)

theorem unvis_le (n : Nat) (st : DfsState) : unvis n st ≤ n := by
  unfold unvis
  calc ((Finset.range n).filter fun i => st.visited.getD i false = false).card
      ≤ (Finset.range n).card := Finset.card_le_card (Finset.filter_subset _ _)
    _ = n := Finset.card_range n

theorem succWF_of_forall (g : Graph)
    (h : ∀ u, u < g.nodes.length → ∀ v ∈ g.succOf u, v < g.nodes.length) : g.succWF := by
  intro u v hv
  by_cases hu : u < g.nodes.length
  · exact h u hu v hv
  · unfold Graph.step Graph.succOf at hv
    rw [List.getElem?_eq_none (by omega)] at hv
    exact absurd hv (by simp)

theorem mapWF_of_forall (g : Graph)
    (h : ∀ u, u < g.nodes.length → ∀ e ∈ g.mapOf u, e.1 < g.nodes.length) : g.mapWF := by
  intro u e he
  by_cases hu : u < g.nodes.length
  · exact h u hu e he
  · unfold Graph.mapOf at he
    rw [List.getElem?_eq_none (by omega)] at he
    exact absurd he (by simp)

theorem check_graph_characterization (g : Graph) (hwf : g.succWF) (hiwf : g.inputWF)
    (hc0 : g.counter = 0) :
    (g.check_graph).2 = none ↔ g.validationSpec := by
  unfold Graph.check_graph
  by_cases hmk : g.input_node = g.output_node ∨ g.input_node = -1 ∨ g.output_node = -1
  · rw [if_pos hmk]
    constructor
    · intro h
      exact absurd h (by simp)
    · intro hspec
      exact absurd hmk (by
        push_neg
        exact ⟨hspec.1.1, hspec.1.2.1, hspec.1.2.2⟩)
  · rw [if_neg hmk]
    dsimp only
    rw [hc0]
    push_neg at hmk
    have hinp : g.input_node.toNat < g.nodes.length := by
      rcases hiwf with h | h
      · exact absurd h hmk.2.1
      · exact h.2
    have hfresh : ¬ visB { visited := List.replicate g.nodes.length false, stack := List.replicate g.nodes.length false, counter := 0 } g.input_node.toNat := by
      unfold visB
      rw [getD_replicate_false]
      simp
    rcases (dfs_master g g.input_node.toNat hwf (g.nodes.length + 1)).1
        { visited := List.replicate g.nodes.length false, stack := List.replicate g.nodes.length false, counter := 0 }
        g.input_node.toNat (fresh_inv g)
        (by have := unvis_le g.nodes.length { visited := List.replicate g.nodes.length false, stack := List.replicate g.nodes.length false, counter := 0 }; omega)
        hfresh hinp Relation.ReflTransGen.refl
        (by intro x hx; unfold stkB at hx; rw [getD_replicate_false] at hx; exact Bool.noConfusion hx)
        (by intro x hx; unfold stkB at hx; rw [getD_replicate_false] at hx; exact Bool.noConfusion hx) with
      ⟨st', hok, bnd, hbk⟩ | ⟨stE, herr, hw⟩ | ⟨stE, herr, hw⟩
    · rw [hok]
      dsimp only
      have hreachblack : ∀ v, g.reaches g.input_node.toNat v → blackB st' v := by
        intro v hv
        exact black_closed_reach g st' bnd.inv.closed _ v hv hbk
      have hvisreach : ∀ x, visB st' x → g.reaches g.input_node.toNat x := by
        intro x hx
        rcases bnd.newVis x hx with h | ⟨a, ha, har⟩
        · unfold visB at h
          rw [getD_replicate_false] at h
          exact absurd h (by simp)
        · rw [ha] at har
          exact har
      constructor
      · intro h
        have hcnt : ¬ st'.counter ≠ g.nodes.length := by
          intro hcnt
          rw [if_pos hcnt] at h
          exact absurd h (by simp)
        refine ⟨⟨hmk.1, hmk.2.1, hmk.2.2⟩, ?_, ?_, ?_⟩
        · intro v hv
          have hcard : (visSet g.nodes.length st').card = g.nodes.length := by
            have := bnd.inv.count
            omega
          have hall : visSet g.nodes.length st' = Finset.range g.nodes.length := by
            apply Finset.eq_of_subset_of_card_le (Finset.filter_subset _ _)
            have hc2 : (visSet g.nodes.length st').card = g.nodes.length := hcard
            unfold visSet at hc2
            rw [hc2, Finset.card_range]
          have hmem : v ∈ visSet g.nodes.length st' := by
            rw [hall]
            exact Finset.mem_range.mpr hv
          have hvis : visB st' v := by
            unfold visSet at hmem
            exact (Finset.mem_filter.mp hmem).2
          exact hvisreach v hvis
        · intro v hv hvout
          rcases bnd.inv.maps v (hreachblack v hv).1 with h | h
          · exact absurd h hvout
          · exact h
        · intro u hu hcyc
          exact bnd.inv.acyc u (hreachblack u hu) hcyc
      · rintro ⟨⟨hm1, hm2, hm3⟩, hall, hmaps, hacyc⟩
        have hvall : visSet g.nodes.length st' = Finset.range g.nodes.length := by
          apply Finset.Subset.antisymm (Finset.filter_subset _ _)
          intro v hvr
          rw [Finset.mem_filter]
          exact ⟨hvr, (hreachblack v (hall v (Finset.mem_range.mp hvr))).1⟩
        have hcnt : st'.counter = g.nodes.length := by
          rw [bnd.inv.count, hvall]
          simp
        rw [if_neg (by omega)]
    · rw [herr]
      dsimp only
      constructor
      · intro h
        exact absurd h (by simp)
      · rintro ⟨_, _, _, hacyc⟩
        obtain ⟨u, hu, hcyc⟩ := hw
        exact absurd hcyc (hacyc u hu)
    · rw [herr]
      dsimp only
      constructor
      · intro h
        exact absurd h (by simp)
      · rintro ⟨_, _, hmaps, _⟩
        obtain ⟨v, hv, hvo, hvm⟩ := hw
        exact absurd (hmaps v hv hvo) hvm

/-- The specification conditions never read the DFS counter. -/
theorem validationSpec_counter_irrel (g : Graph) (c : Nat) :
    Graph.validationSpec { g with counter := c } ↔ g.validationSpec := Iff.rfl

/-- Claim C2 (counterexample): `validate()` success is NOT equivalent to
the specification conditions, because the member `Graph::_counter` is
never reset.  On the `exRetry0` template the first `validate()` fails with
`incompleteOutputMap`, leaving the counter at 1; after wiring the missing
edge the template satisfies every condition of the claim, yet `validate()`
now fails with `unreachableNodes` — its DFS counts `2 + 4 ≠ 4`. -/
theorem claim_C2_counterexample :
    (exRetry0.1.validate).2 = some BuildError.incompleteOutputMap ∧
    exRetry.valid = false ∧
    exRetry.graph.counter = 2 ∧
    exRetry.graph.validationSpec ∧
    (exRetry.validate).2 = some BuildError.unreachableNodes := by
  refine ⟨by decide, by decide, by decide, ?_, by decide⟩
  rw [← validationSpec_counter_irrel exRetry.graph 0]
  exact (check_graph_characterization { exRetry.graph with counter := 0 }
    (succWF_of_forall _ (by decide)) (Or.inr ⟨by decide, by decide⟩) rfl).mp (by decide)

/-- Claim C2 (amended): on a not-yet-validated template whose persistent
DFS counter is still 0 (as on a freshly built template, before any failed
`validate()`), and whose builder invariants hold, `validate()` succeeds —
returns no error — exactly when the input and output markers are set and
distinct, every node is reached from the input node, every reached node
other than the terminal has a full output map, and no reached node lies on
a successor cycle; on any violation it returns a construction error. -/
theorem claim_C2_amended (m : Mdf) (hval : m.valid = false)
    (hc0 : m.graph.counter = 0) (hwf : m.graph.succWF) (hiwf : m.graph.inputWF) :
    (m.validate).2 = none ↔ m.graph.validationSpec := by
  unfold Mdf.validate
  rw [hval]
  simp only [Bool.false_eq_true, if_false]
  rw [← check_graph_characterization m.graph hwf hiwf hc0]
  cases hcg : m.graph.check_graph with
  | mk gR o =>
    cases o with
    | none => simp
    | some e => simp

/-- Witness for the amended claim C2 at the `exChain` template (freshly
built, counter 0): its `validate` returns no error, hence the
specification conditions hold of its graph. -/
theorem claim_C2_amended_witness : exChain.1.graph.validationSpec :=
  (claim_C2_amended exChain.1 (by decide) (by decide)
    (succWF_of_forall exChain.1.graph (by decide))
    (Or.inr ⟨by decide, by decide⟩)).mp (by decide)

theorem length_clone (g : Graph) : g.clone.nodes.length = g.nodes.length := by
  unfold Graph.clone
  simp

theorem length_sit (g : Graph) (args : List Token) :
    (g.send_input_tokens args).nodes.length = g.nodes.length := by
  unfold Graph.send_input_tokens
  cases g.nodes[g.input_node.toNat]? with
  | none => rfl
  | some nd => exact length_setNode g _ _

theorem mapOf_clone (g : Graph) (u : Nat) : g.clone.mapOf u = g.mapOf u := by
  rw [mapOf_eq_read, mapOf_eq_read, clone_get]
  cases g.nodes[u]? <;> simp [Node.instanceCopy]

theorem succOf_clone (g : Graph) (u : Nat) : g.clone.succOf u = g.succOf u := by
  rw [succOf_eq_read, succOf_eq_read, clone_get]
  cases g.nodes[u]? <;> simp [Node.instanceCopy]

theorem isOut_clone (g : Graph) (u : Nat) : g.clone.isOut u = g.isOut u := by
  rw [isOut_eq_read, isOut_eq_read, clone_get]
  cases g.nodes[u]? <;> simp [Node.instanceCopy]

theorem mapOf_sit (g : Graph) (args : List Token) (u : Nat) :
    (g.send_input_tokens args).mapOf u = g.mapOf u := by
  unfold Graph.send_input_tokens
  cases hn : g.nodes[g.input_node.toNat]? with
  | none => rfl
  | some nd =>
    dsimp only
    exact mapOf_setNode g _ _ (by intro nd2 h2; rw [hn] at h2; cases h2; rfl) u

theorem succOf_sit (g : Graph) (args : List Token) (u : Nat) :
    (g.send_input_tokens args).succOf u = g.succOf u := by
  unfold Graph.send_input_tokens
  cases hn : g.nodes[g.input_node.toNat]? with
  | none => rfl
  | some nd =>
    dsimp only
    exact succOf_setNode g _ _ (by intro nd2 h2; rw [hn] at h2; cases h2; rfl) u

theorem isOut_sit (g : Graph) (args : List Token) (u : Nat) :
    (g.send_input_tokens args).isOut u = g.isOut u := by
  unfold Graph.send_input_tokens
  cases hn : g.nodes[g.input_node.toNat]? with
  | none => rfl
  | some nd =>
    dsimp only
    exact isOut_setNode g _ _ (by intro nd2 h2; rw [hn] at h2; cases h2; rfl) u

theorem inSizeOf_sit (g : Graph) (args : List Token) (u : Nat) :
    (g.send_input_tokens args).inSizeOf u = g.inSizeOf u := by
  unfold Graph.send_input_tokens
  cases hn : g.nodes[g.input_node.toNat]? with
  | none => rfl
  | some nd =>
    dsimp only
    exact inSizeOf_setNode g _ _ (by intro nd2 h2; rw [hn] at h2; cases h2; rfl) u

theorem mapOf_decCount (g : Graph) (t u : Nat) : (g.decCount t).mapOf u = g.mapOf u := by
  unfold Graph.decCount
  cases hn : g.nodes[t]? with
  | none => rfl
  | some nd =>
    dsimp only
    exact mapOf_setNode g _ _ (by intro nd2 h2; rw [hn] at h2; cases h2; rfl) u

theorem succOf_decCount (g : Graph) (t u : Nat) : (g.decCount t).succOf u = g.succOf u := by
  unfold Graph.decCount
  cases hn : g.nodes[t]? with
  | none => rfl
  | some nd =>
    dsimp only
    exact succOf_setNode g _ _ (by intro nd2 h2; rw [hn] at h2; cases h2; rfl) u

theorem isOut_decCount (g : Graph) (t u : Nat) : (g.decCount t).isOut u = g.isOut u := by
  unfold Graph.decCount
  cases hn : g.nodes[t]? with
  | none => rfl
  | some nd =>
    dsimp only
    exact isOut_setNode g _ _ (by intro nd2 h2; rw [hn] at h2; cases h2; rfl) u

theorem inSizeOf_decCount (g : Graph) (t u : Nat) : (g.decCount t).inSizeOf u = g.inSizeOf u := by
  unfold Graph.decCount
  cases hn : g.nodes[t]? with
  | none => rfl
  | some nd =>
    dsimp only
    exact inSizeOf_setNode g _ _ (by intro nd2 h2; rw [hn] at h2; cases h2; rfl) u

theorem procOf_decCount (g : Graph) (t u : Nat) : (g.decCount t).procOf u = g.procOf u := by
  unfold Graph.decCount
  cases hn : g.nodes[t]? with
  | none => rfl
  | some nd =>
    dsimp only
    exact procOf_setNode g _ _ (by intro nd2 h2; rw [hn] at h2; cases h2; rfl) u

theorem countOf_decCount (g : Graph) (t u : Nat) :
    (g.decCount t).countOf u =
      g.countOf u - (if u = t ∧ t < g.nodes.length then 1 else 0) := by
  unfold Graph.decCount
  cases hnd : g.nodes[t]? with
  | none =>
    dsimp only
    have hge : ¬ t < g.nodes.length := by
      intro hlt
      rw [List.getElem?_eq_none_iff] at hnd
      omega
    simp [hge]
  | some nd =>
    dsimp only
    obtain ⟨hlt, _⟩ := List.getElem?_eq_some.mp hnd
    by_cases hu : u = t
    · subst hu
      rw [countOf_eq_read, countOf_eq_read]
      unfold Graph.setNode
      simp only [List.getElem?_set, if_pos rfl, hlt, if_true, hnd, Option.map_some',
        Option.getD_some]
      simp [hlt]
    · rw [countOf_eq_read, countOf_eq_read]
      unfold Graph.setNode
      simp only []
      rw [List.getElem?_set_ne (fun he => hu (Eq.symm he))]
      simp [hu]

theorem mapOf_writeSlot (g : Graph) (t sl : Nat) (o : Option Token) (u : Nat) :
    (g.writeSlot t sl o).mapOf u = g.mapOf u := by
  unfold Graph.writeSlot
  cases hn : g.nodes[t]? with
  | none => rfl
  | some nd =>
    dsimp only
    exact mapOf_setNode g _ _ (by intro nd2 h2; rw [hn] at h2; cases h2; rfl) u

theorem succOf_writeSlot (g : Graph) (t sl : Nat) (o : Option Token) (u : Nat) :
    (g.writeSlot t sl o).succOf u = g.succOf u := by
  unfold Graph.writeSlot
  cases hn : g.nodes[t]? with
  | none => rfl
  | some nd =>
    dsimp only
    exact succOf_setNode g _ _ (by intro nd2 h2; rw [hn] at h2; cases h2; rfl) u

theorem isOut_writeSlot (g : Graph) (t sl : Nat) (o : Option Token) (u : Nat) :
    (g.writeSlot t sl o).isOut u = g.isOut u := by
  unfold Graph.writeSlot
  cases hn : g.nodes[t]? with
  | none => rfl
  | some nd =>
    dsimp only
    exact isOut_setNode g _ _ (by intro nd2 h2; rw [hn] at h2; cases h2; rfl) u

theorem inSizeOf_writeSlot (g : Graph) (t sl : Nat) (o : Option Token) (u : Nat) :
    (g.writeSlot t sl o).inSizeOf u = g.inSizeOf u := by
  unfold Graph.writeSlot
  cases hn : g.nodes[t]? with
  | none => rfl
  | some nd =>
    dsimp only
    exact inSizeOf_setNode g _ _ (by intro nd2 h2; rw [hn] at h2; cases h2; rfl) u

theorem procOf_writeSlot (g : Graph) (t sl : Nat) (o : Option Token) (u : Nat) :
    (g.writeSlot t sl o).procOf u = g.procOf u := by
  unfold Graph.writeSlot
  cases hn : g.nodes[t]? with
  | none => rfl
  | some nd =>
    dsimp only
    exact procOf_setNode g _ _ (by intro nd2 h2; rw [hn] at h2; cases h2; rfl) u

theorem countOf_writeSlot (g : Graph) (t sl : Nat) (o : Option Token) (u : Nat) :
    (g.writeSlot t sl o).countOf u = g.countOf u := by
  unfold Graph.writeSlot
  cases hn : g.nodes[t]? with
  | none => rfl
  | some nd =>
    dsimp only
    exact countOf_setNode g _ _ (by intro nd2 h2; rw [hn] at h2; cases h2; rfl) u

theorem procOf_setNode_ne (g : Graph) (i : Nat) (nd' : Node) (u : Nat) (h : u ≠ i) :
    (g.setNode i nd').procOf u = g.procOf u := by
  rw [procOf_eq_read, procOf_eq_read]
  unfold Graph.setNode
  simp only []
  rw [List.getElem?_set_ne (fun he => h (Eq.symm he))]

theorem procOf_setNode_self (g : Graph) (i : Nat) (nd nd' : Node)
    (hnd : g.nodes[i]? = some nd) :
    (g.setNode i nd').procOf i = nd'.processed := by
  obtain ⟨hlt, _⟩ := List.getElem?_eq_some.mp hnd
  rw [procOf_eq_read]
  unfold Graph.setNode
  simp [List.getElem?_set, hlt]

theorem filter_length_set {α : Type} (p : α → Bool) (l : List α) (j : Nat) (a b : α)
    (hb : l[j]? = some b) (hp : p a = p b) :
    ((l.set j a).filter p).length = (l.filter p).length := by
  induction l generalizing j with
  | nil => simp at hb
  | cons x xs ih =>
    cases j with
    | zero =>
      simp only [List.getElem?_cons_zero, Option.some_inj] at hb
      subst hb
      simp only [List.set_cons_zero]
      rw [List.filter_cons, List.filter_cons, hp]
      cases hpx : p x <;> simp [hpx]
    | succ k =>
      simp only [List.getElem?_cons_succ] at hb
      simp only [List.set_cons_succ]
      rw [List.filter_cons, List.filter_cons]
      cases hpx : p x <;> simp [hpx, ih k hb]

theorem sum_map_set {α : Type} (f : α → Nat) (l : List α) (j : Nat) (a b : α)
    (hb : l[j]? = some b) :
    ((l.set j a).map f).sum + f b = (l.map f).sum + f a := by
  induction l generalizing j with
  | nil => simp at hb
  | cons x xs ih =>
    cases j with
    | zero =>
      simp only [List.getElem?_cons_zero, Option.some_inj] at hb
      subst hb
      simp only [List.set_cons_zero, List.map_cons, List.sum_cons]
      omega
    | succ k =>
      simp only [List.getElem?_cons_succ] at hb
      simp only [List.set_cons_succ, List.map_cons, List.sum_cons]
      have := ih k hb
      omega

theorem targetsIn_cons (e : Nat × Nat) (rm : List (Nat × Nat)) (t : Nat) :
    targetsIn (e :: rm) t = (if e.1 = t then 1 else 0) + targetsIn rm t := by
  unfold targetsIn
  rw [List.filter_cons]
  by_cases h : e.1 = t
  · simp [h, Nat.add_comm]
  · simp [h]

theorem targetsIn_append (l1 l2 : List (Nat × Nat)) (t : Nat) :
    targetsIn (l1 ++ l2) t = targetsIn l1 t + targetsIn l2 t := by
  unfold targetsIn
  rw [List.filter_append, List.length_append]

theorem sum_map_le {α : Type} (l : List α) (f g : α → Nat) (h : ∀ x ∈ l, f x ≤ g x) :
    (l.map f).sum ≤ (l.map g).sum := by
  induction l with
  | nil => simp
  | cons a t ih =>
    simp only [List.map_cons, List.sum_cons]
    have h1 := h a (by simp)
    have h2 := ih (fun x hx => h x (by simp [hx]))
    omega

theorem sum_nodup_le (f : Nat → Nat) (l : List Nat) (n : Nat) (hnd : l.Nodup)
    (hlt : ∀ x ∈ l, x < n) : (l.map f).sum ≤ ((List.range n).map f).sum := by
  rw [← List.sum_toFinset f hnd, ← List.sum_toFinset f (List.nodup_range n)]
  apply Finset.sum_le_sum_of_subset
  intro x hx
  rw [List.mem_toFinset] at hx ⊢
  exact List.mem_range.mpr (hlt x hx)

theorem nodes_nodup (jobs : List JobState)
    (h : ∀ u, (jobs.filter fun j => j.node == u).length ≤ 1) :
    (jobs.map fun j => j.node).Nodup := by
  induction jobs with
  | nil => simp
  | cons j rest ih =>
    simp only [List.map_cons, List.nodup_cons]
    constructor
    · intro hmem
      obtain ⟨j2, hj2, hnode⟩ := List.mem_map.mp hmem
      have h1 := h j.node
      rw [List.filter_cons] at h1
      have hj2f : j2 ∈ rest.filter fun j3 => j3.node == j.node := by
        rw [List.mem_filter]
        exact ⟨hj2, by simp [hnode]⟩
      have hpos : 0 < (rest.filter fun j3 => j3.node == j.node).length :=
        List.length_pos.mpr (fun he => by rw [he] at hj2f; exact absurd hj2f (by simp))
      simp only [beq_self_eq_true, if_true, List.length_cons] at h1
      omega
    · apply ih
      intro u
      have hu := h u
      rw [List.filter_cons] at hu
      by_cases hp : (j.node == u) = true
      · rw [if_pos hp] at hu
        simp only [List.length_cons] at hu
        omega
      · rw [if_neg hp] at hu
        exact hu

theorem no_step_into_input (g : Graph) (hspec : g.validationSpec) :
    ∀ u, ¬ g.step u g.input_node.toNat := by
  intro u hstep
  by_cases hu : u < g.nodes.length
  · have hreach := hspec.2.1 u hu
    have hcyc : g.cycleAt g.input_node.toNat := Relation.TransGen.tail' hreach hstep
    exact hspec.2.2.2 g.input_node.toNat Relation.ReflTransGen.refl hcyc
  · unfold Graph.step Graph.succOf at hstep
    rw [List.getElem?_eq_none (by omega)] at hstep
    exact absurd hstep (by simp)

theorem targetsIn_cons2 (a b : Nat) (rm : List (Nat × Nat)) (t : Nat) :
    targetsIn ((a, b) :: rm) t = (if a = t then 1 else 0) + targetsIn rm t := by
  unfold targetsIn
  rw [List.filter_cons]
  by_cases h : a = t
  · simp [h, Nat.add_comm]
  · simp [h]

theorem jobDecs_tail (G : Graph) (job job2 : JobState) (t sl : Nat) (rm : List (Nat × Nat))
    (x : Nat) (hnode : job2.node = job.node) (hrm2 : job2.remMap = rm)
    (hmap : ∃ pre, pre ++ job.remMap = G.mapOf job.node)
    (hrm : job.remMap = (t, sl) :: rm) :
    jobDecs G job2 x = jobDecs G job x + (if t = x then 1 else 0) := by
  obtain ⟨pre, hpre⟩ := hmap
  unfold jobDecs
  rw [hnode, hrm2, hrm]
  have htot : targetsIn (G.mapOf job.node) x =
      targetsIn pre x + ((if t = x then 1 else 0) + targetsIn rm x) := by
    rw [← hpre, hrm, targetsIn_append, targetsIn_cons2]
  rw [htot, targetsIn_cons2]
  by_cases hx : t = x
  · simp only [if_pos hx]
    omega
  · simp only [if_neg hx]
    omega

theorem count_cons_ite (a : Nat) (l : List Nat) (v : Nat) :
    (a :: l).count v = l.count v + (if v = a then 1 else 0) := by
  rw [List.count_cons]
  by_cases h : v = a
  · subst h
    simp
  · have hbe : (a == v) = false := by
      simp
      exact fun he => h (Eq.symm he)
    rw [hbe]
    simp [h]

theorem count_append_single (l : List Nat) (a v : Nat) :
    (l ++ [a]).count v = l.count v + (if v = a then 1 else 0) := by
  rw [List.count_append, List.count_singleton']
  by_cases h : v = a
  · subst h
    simp
  · have h2 : ¬ a = v := fun he => h (Eq.symm he)
    simp [h, h2]

theorem decs_set (G : Graph) (jobs : List JobState) (j : Nat) (a b : JobState)
    (hb : jobs[j]? = some b) (x : Nat) :
    ((jobs.set j a).map fun jb => jobDecs G jb x).sum + jobDecs G b x =
      (jobs.map fun jb => jobDecs G jb x).sum + jobDecs G a x :=
  sum_map_set (fun jb => jobDecs G jb x) jobs j a b hb

theorem runInv_step (G : Graph) (inp : Nat) (hswf : G.succWF) (hmwf : G.mapWF)
    (hninp : ∀ u, ¬ G.step u inp) (s s2 : RunState)
    (hstep : WStep s s2) (hinv : RunInv G inp s) : RunInv G inp s2 := by
  cases hstep with
  | popOut u q' hq hout =>
    have hGout : G.isOut u = true := by rw [← hinv.outs u]; exact hout
    refine ⟨hinv.len, hinv.maps, hinv.succs, hinv.outs, hinv.insz, hinv.enqInp,
      hinv.procInp, hinv.enqOther, ?_, ?_, hinv.jobsRange, ?_, hinv.jobsSucc,
      hinv.jobsMap, hinv.counts⟩
    · intro v
      dsimp only
      have hc := hinv.queueCons v
      rw [hq, count_cons_ite] at hc
      by_cases hv : v = u
      · rw [if_pos hv]
        rw [if_pos hv] at hc
        omega
      · rw [if_neg hv]
        rw [if_neg hv] at hc
        omega
    · intro v hv
      exact hinv.queueRange v (by rw [hq]; exact List.mem_cons_of_mem _ hv)
    · intro u2
      dsimp only
      have hj := hinv.jobsCount u2
      by_cases hu2 : u2 = u
      · subst hu2
        rw [hGout] at hj ⊢
        simpa using hj
      · rw [if_neg hu2]
        exact hj
  | popRun u q' nd hq hnd hout =>
    have huq : u ∈ s.queue := by rw [hq]; exact List.mem_cons_self _ _
    have hulen : u < G.nodes.length := hinv.queueRange u huq
    have hsuccu : s.inst.succOf u = nd.successors := by
      unfold Graph.succOf
      rw [hnd]
    have hmapu : s.inst.mapOf u = nd.output_map := by
      unfold Graph.mapOf
      rw [hnd]
    have hIout : s.inst.isOut u = false := by
      unfold Graph.isOut
      rw [hnd]
      exact hout
    have hGout : G.isOut u = false := by rw [← hinv.outs u]; exact hIout
    have hnm : nd.output_map = G.mapOf u := by rw [← hinv.maps u, hmapu]
    have hns : nd.successors = G.succOf u := by rw [← hinv.succs u, hsuccu]
    refine ⟨hinv.len, hinv.maps, hinv.succs, hinv.outs, hinv.insz, hinv.enqInp,
      hinv.procInp, hinv.enqOther, ?_, ?_, ?_, ?_, ?_, ?_, ?_⟩
    · intro v
      dsimp only
      have hc := hinv.queueCons v
      rw [hq, count_cons_ite] at hc
      by_cases hv : v = u
      · rw [if_pos hv]
        rw [if_pos hv] at hc
        omega
      · rw [if_neg hv]
        rw [if_neg hv] at hc
        omega
    · intro v hv
      exact hinv.queueRange v (by rw [hq]; exact List.mem_cons_of_mem _ hv)
    · intro job hj
      rcases List.mem_append.mp hj with hj | hj
      · exact hinv.jobsRange job hj
      · rw [List.mem_singleton] at hj
        rw [hj]
        exact hulen
    · intro u2
      dsimp only
      rw [List.filter_append, List.length_append]
      simp only [List.filter_cons, List.filter_nil]
      have hj := hinv.jobsCount u2
      by_cases hu2 : u2 = u
      · subst hu2
        rw [hGout] at hj ⊢
        simp only [Bool.false_eq_true, if_false] at hj ⊢
        simp only [beq_self_eq_true, if_true, if_pos rfl, List.length_cons,
          List.length_nil]
        omega
      · have hne : (u == u2) = false := by
          simp
          exact fun he => hu2 (Eq.symm he)
        rw [hne]
        simp only [Bool.false_eq_true, if_false, List.length_nil, Nat.add_zero,
          if_neg hu2]
        rw [hj]
    · intro job hj x hx
      rcases List.mem_append.mp hj with hj | hj
      · exact hinv.jobsSucc job hj x hx
      · rw [List.mem_singleton] at hj
        subst hj
        show x ∈ G.succOf u
        rw [← hns]
        exact hx
    · intro job hj
      rcases List.mem_append.mp hj with hj | hj
      · exact hinv.jobsMap job hj
      · rw [List.mem_singleton] at hj
        subst hj
        refine ⟨[], ?_⟩
        rw [List.nil_append]
        show nd.output_map = G.mapOf u
        rw [hnm]
    · intro t
      have hc := hinv.counts t
      simp only [decsReceived] at hc ⊢
      rw [List.map_append, List.sum_append]
      simp only [List.map_cons, List.map_nil, List.sum_cons, List.sum_nil]
      have hzero : jobDecs G { node := u, out := nd.execute, remMap := nd.output_map, remSucc := nd.successors } t = 0 := by
        unfold jobDecs
        show targetsIn (G.mapOf u) t - targetsIn nd.output_map t = 0
        rw [hnm]
        omega
      rw [hzero]
      omega
  | transferStep j job t sl rm o orest hj hrm hout =>
    have hjmem : job ∈ s.jobs := List.getElem?_mem hj
    have hmap := hinv.jobsMap job hjmem
    have htin : (t, sl) ∈ G.mapOf job.node := by
      obtain ⟨pre, hpre⟩ := hmap
      rw [← hpre, hrm]
      exact List.mem_append.mpr (Or.inr (List.mem_cons_self _ _))
    have htlen : t < G.nodes.length := hmwf job.node (t, sl) htin
    have htlei : t < s.inst.nodes.length := by rw [hinv.len]; exact htlen
    refine ⟨?_, ?_, ?_, ?_, ?_, hinv.enqInp, ?_, ?_, hinv.queueCons,
      hinv.queueRange, ?_, ?_, ?_, ?_, ?_⟩
    · dsimp only
      rw [length_writeSlot, length_decCount]
      exact hinv.len
    · intro u
      dsimp only
      rw [mapOf_writeSlot, mapOf_decCount]
      exact hinv.maps u
    · intro u
      dsimp only
      rw [succOf_writeSlot, succOf_decCount]
      exact hinv.succs u
    · intro u
      dsimp only
      rw [isOut_writeSlot, isOut_decCount]
      exact hinv.outs u
    · intro u
      dsimp only
      rw [inSizeOf_writeSlot, inSizeOf_decCount]
      exact hinv.insz u
    · dsimp only
      rw [procOf_writeSlot, procOf_decCount]
      exact hinv.procInp
    · intro v hv
      dsimp only
      rw [procOf_writeSlot, procOf_decCount]
      exact hinv.enqOther v hv
    · intro job3 hj3
      rcases List.mem_or_eq_of_mem_set hj3 with hj3 | hj3
      · exact hinv.jobsRange job3 hj3
      · rw [hj3]
        exact hinv.jobsRange job hjmem
    · intro u2
      dsimp only
      rw [filter_length_set (fun j3 => j3.node == u2) s.jobs j
        { job with out := orest, remMap := rm } job hj rfl]
      exact hinv.jobsCount u2
    · intro job3 hj3 x hx
      rcases List.mem_or_eq_of_mem_set hj3 with hj3 | hj3
      · exact hinv.jobsSucc job3 hj3 x hx
      · rw [hj3] at hx ⊢
        exact hinv.jobsSucc job hjmem x hx
    · intro job3 hj3
      rcases List.mem_or_eq_of_mem_set hj3 with hj3 | hj3
      · exact hinv.jobsMap job3 hj3
      · obtain ⟨pre, hpre⟩ := hmap
        rw [hj3]
        refine ⟨pre ++ [(t, sl)], ?_⟩
        show (pre ++ [(t, sl)]) ++ rm = G.mapOf job.node
        rw [List.append_assoc, List.singleton_append, ← hrm]
        exact hpre
    · intro x
      have hc := hinv.counts x
      have hdec := decs_set G s.jobs j { job with out := orest, remMap := rm } job hj x
      have hjd := jobDecs_tail G job { job with out := orest, remMap := rm } t sl rm x
        rfl rfl hmap hrm
      simp only [decsReceived] at hc ⊢
      rw [countOf_writeSlot, countOf_decCount]
      by_cases hx : x = t
      · rw [if_pos ⟨hx, htlei⟩]
        rw [if_pos (Eq.symm hx)] at hjd
        omega
      · rw [if_neg (fun hand => hx hand.1)]
        rw [if_neg (fun he => hx (Eq.symm he))] at hjd
        omega
  | scanHit j job v vs nd hj hrm hsc hnd hcnt hproc =>
    have hjmem : job ∈ s.jobs := List.getElem?_mem hj
    have hvsucc : v ∈ G.succOf job.node :=
      hinv.jobsSucc job hjmem v (by rw [hsc]; exact List.mem_cons_self _ _)
    have hstepv : G.step job.node v := hvsucc
    have hvne : v ≠ inp := fun he => hninp job.node (he ▸ hstepv)
    have hvlen : v < G.nodes.length := hswf job.node v hstepv
    have hprocv : s.inst.procOf v = false := by
      unfold Graph.procOf
      rw [hnd]
      exact hproc
    have hfld : ∀ nd2, s.inst.nodes[v]? = some nd2 →
        ({ nd with processed := true } : Node).output_map = nd2.output_map ∧
        ({ nd with processed := true } : Node).successors = nd2.successors ∧
        ({ nd with processed := true } : Node).is_output = nd2.is_output ∧
        ({ nd with processed := true } : Node).input_size = nd2.input_size ∧
        ({ nd with processed := true } : Node).tokens_count = nd2.tokens_count := by
      intro nd2 h2
      rw [hnd] at h2
      cases h2
      exact ⟨rfl, rfl, rfl, rfl, rfl⟩
    refine ⟨?_, ?_, ?_, ?_, ?_, ?_, ?_, ?_, ?_, ?_, ?_, ?_, ?_, ?_, ?_⟩
    · dsimp only
      rw [length_setNode]
      exact hinv.len
    · intro u
      dsimp only
      rw [mapOf_setNode _ _ _ (fun nd2 h2 => (hfld nd2 h2).1)]
      exact hinv.maps u
    · intro u
      dsimp only
      rw [succOf_setNode _ _ _ (fun nd2 h2 => (hfld nd2 h2).2.1)]
      exact hinv.succs u
    · intro u
      dsimp only
      rw [isOut_setNode _ _ _ (fun nd2 h2 => (hfld nd2 h2).2.2.1)]
      exact hinv.outs u
    · intro u
      dsimp only
      rw [inSizeOf_setNode _ _ _ (fun nd2 h2 => (hfld nd2 h2).2.2.2.1)]
      exact hinv.insz u
    · dsimp only
      rw [if_neg (fun he => hvne (Eq.symm he))]
      exact hinv.enqInp
    · dsimp only
      rw [procOf_setNode_ne _ _ _ _ (fun he => hvne (Eq.symm he))]
      exact hinv.procInp
    · intro w hw
      dsimp only
      by_cases hwv : w = v
      · subst hwv
        rw [if_pos rfl]
        rw [procOf_setNode_self _ _ nd _ hnd]
        have he0 : s.enqHist w = 0 := by
          rw [hinv.enqOther w hw, hprocv]
          rfl
        rw [he0]
        rfl
      · rw [if_neg hwv, procOf_setNode_ne _ _ _ _ hwv]
        exact hinv.enqOther w hw
    · intro w
      dsimp only
      have hc := hinv.queueCons w
      rw [count_append_single]
      by_cases hwv : w = v
      · rw [if_pos hwv, if_pos hwv]
        omega
      · rw [if_neg hwv, if_neg hwv]
        omega
    · intro w hw
      rcases List.mem_append.mp hw with hw | hw
      · exact hinv.queueRange w hw
      · rw [List.mem_singleton] at hw
        rw [hw]
        exact hvlen
    · intro job3 hj3
      rcases List.mem_or_eq_of_mem_set hj3 with hj3 | hj3
      · exact hinv.jobsRange job3 hj3
      · rw [hj3]
        exact hinv.jobsRange job hjmem
    · intro u2
      dsimp only
      rw [filter_length_set (fun j3 => j3.node == u2) s.jobs j
        { job with remSucc := vs } job hj rfl]
      exact hinv.jobsCount u2
    · intro job3 hj3 x hx
      rcases List.mem_or_eq_of_mem_set hj3 with hj3 | hj3
      · exact hinv.jobsSucc job3 hj3 x hx
      · rw [hj3] at hx ⊢
        exact hinv.jobsSucc job hjmem x (by rw [hsc]; exact List.mem_cons_of_mem _ hx)
    · intro job3 hj3
      rcases List.mem_or_eq_of_mem_set hj3 with hj3 | hj3
      · exact hinv.jobsMap job3 hj3
      · rw [hj3]
        exact hinv.jobsMap job hjmem
    · intro x
      have hc := hinv.counts x
      have hdec := decs_set G s.jobs j { job with remSucc := vs } job hj x
      have hsame : jobDecs G { job with remSucc := vs } x = jobDecs G job x := rfl
      simp only [decsReceived] at hc ⊢
      rw [countOf_setNode _ _ _ (fun nd2 h2 => (hfld nd2 h2).2.2.2.2)]
      rw [hsame] at hdec
      omega
  | scanMiss j job v vs hj hrm hsc hmiss =>
    have hjmem : job ∈ s.jobs := List.getElem?_mem hj
    refine ⟨hinv.len, hinv.maps, hinv.succs, hinv.outs, hinv.insz, hinv.enqInp,
      hinv.procInp, hinv.enqOther, hinv.queueCons, hinv.queueRange, ?_, ?_, ?_, ?_, ?_⟩
    · intro job3 hj3
      rcases List.mem_or_eq_of_mem_set hj3 with hj3 | hj3
      · exact hinv.jobsRange job3 hj3
      · rw [hj3]
        exact hinv.jobsRange job hjmem
    · intro u2
      dsimp only
      rw [filter_length_set (fun j3 => j3.node == u2) s.jobs j
        { job with remSucc := vs } job hj rfl]
      exact hinv.jobsCount u2
    · intro job3 hj3 x hx
      rcases List.mem_or_eq_of_mem_set hj3 with hj3 | hj3
      · exact hinv.jobsSucc job3 hj3 x hx
      · rw [hj3] at hx ⊢
        exact hinv.jobsSucc job hjmem x (by rw [hsc]; exact List.mem_cons_of_mem _ hx)
    · intro job3 hj3
      rcases List.mem_or_eq_of_mem_set hj3 with hj3 | hj3
      · exact hinv.jobsMap job3 hj3
      · rw [hj3]
        exact hinv.jobsMap job hjmem
    · intro x
      have hc := hinv.counts x
      have hdec := decs_set G s.jobs j { job with remSucc := vs } job hj x
      have hsame : jobDecs G { job with remSucc := vs } x = jobDecs G job x := rfl
      simp only [decsReceived] at hc ⊢
      rw [hsame] at hdec
      omega

theorem runInv_reachable (G : Graph) (inp : Nat) (hswf : G.succWF) (hmwf : G.mapWF)
    (hninp : ∀ u, ¬ G.step u inp) (s0 s : RunState) (h0 : RunInv G inp s0)
    (hreach : RunReachable s0 s) : RunInv G inp s := by
  unfold RunReachable at hreach
  induction hreach with
  | refl => exact h0
  | tail hab hbc ih => exact runInv_step G inp hswf hmwf hninp _ _ hbc ih

theorem runInv_seed (m : Mdf) (args : List Token) (r : Mdf × Option BuildError)
    (s0 : RunState) (hrun : Executor.run m args = (r, some s0))
    (hinp : m.graph.input_node.toNat < m.graph.nodes.length) :
    RunInv m.graph m.graph.input_node.toNat s0 := by
  unfold Executor.run at hrun
  cases hval : m.validate with
  | mk m1 o =>
    rw [hval] at hrun
    cases o with
    | some e => simp at hrun
    | none =>
      have hf := validate_fields m
      rw [hval] at hf
      dsimp only at hf
      have hcl : m1.graph.clone = m.graph.clone := by
        unfold Graph.clone
        rw [hf.1, hf.2.1, hf.2.2]
      have hin : m1.graph.input_node = m.graph.input_node := hf.2.1
      dsimp only at hrun
      injection hrun with h1 h2
      injection h2 with h2
      rw [← h2, hcl, hin]
      refine ⟨?_, ?_, ?_, ?_, ?_, ?_, ?_, ?_, ?_, ?_, ?_, ?_, ?_, ?_, ?_⟩
      · dsimp only
        rw [length_sit, length_clone]
      · intro u
        dsimp only
        rw [mapOf_sit, mapOf_clone]
      · intro u
        dsimp only
        rw [succOf_sit, succOf_clone]
      · intro u
        dsimp only
        rw [isOut_sit, isOut_clone]
      · intro u
        dsimp only
        rw [inSizeOf_sit, inSizeOf_clone]
      · dsimp only
        rw [if_pos rfl]
      · dsimp only
        rw [procOf_sit, procOf_clone]
      · intro v hv
        dsimp only
        rw [procOf_sit, procOf_clone, if_neg hv]
        rfl
      · intro v
        dsimp only
        by_cases hv : v = m.graph.input_node.toNat
        · subst hv
          rw [if_pos rfl]
          simp
        · rw [if_neg hv]
          have h0 : ([m.graph.input_node.toNat] : List Nat).count v = 0 := by
            rw [List.count_singleton']
            rw [if_neg (fun he => hv (Eq.symm he))]
          rw [h0]
      · intro v hv
        dsimp only at hv
        rw [List.mem_singleton] at hv
        rw [hv]
        exact hinp
      · intro job hj
        exact absurd hj (by simp)
      · intro u
        dsimp only
        simp
      · intro job hj x hx
        exact absurd hj (by simp)
      · intro job hj
        exact absurd hj (by simp)
      · intro t
        simp only [decsReceived]
        rw [countOf_sit, countOf_clone]
        simp

theorem decs_le_totalWired (G : Graph) (inp : Nat) (s : RunState)
    (hinv : RunInv G inp s) (t : Nat) : decsReceived G s t ≤ G.totalWired t := by
  unfold decsReceived Graph.totalWired
  have h1 : (s.jobs.map fun job => jobDecs G job t).sum ≤
      (s.jobs.map fun job => targetsIn (G.mapOf job.node) t).sum := by
    apply sum_map_le
    intro job hj
    unfold jobDecs
    omega
  have h2 : (s.jobs.map fun job => targetsIn (G.mapOf job.node) t).sum =
      ((s.jobs.map fun job => job.node).map fun u => targetsIn (G.mapOf u) t).sum := by
    rw [List.map_map]
    rfl
  have hnd : (s.jobs.map fun job => job.node).Nodup := by
    apply nodes_nodup
    intro u
    rw [hinv.jobsCount u]
    by_cases ho : G.isOut u
    · rw [if_pos ho]
      omega
    · rw [if_neg ho]
      have hq := hinv.queueCons u
      by_cases hu : u = inp
      · subst hu
        rw [hinv.enqInp] at hq
        omega
      · rw [hinv.enqOther u hu] at hq
        by_cases hp : s.inst.procOf u
        · rw [if_pos hp] at hq
          omega
        · rw [if_neg hp] at hq
          omega
  have h3 : ((s.jobs.map fun job => job.node).map fun u => targetsIn (G.mapOf u) t).sum ≤
      ((List.range G.nodes.length).map fun u => targetsIn (G.mapOf u) t).sum := by
    apply sum_nodup_le _ _ _ hnd
    intro x hx
    obtain ⟨job, hjm, hje⟩ := List.mem_map.mp hx
    rw [← hje]
    exact hinv.jobsRange job hjm
  omega

theorem exHalf_spec : exHalf.1.graph.validationSpec :=
  (check_graph_characterization exHalf.1.graph (succWF_of_forall _ (by decide))
    (Or.inr ⟨by decide, by decide⟩) (by decide)).mp (by decide)

/-- Claim C1: for a template satisfying the validation conditions and the
builder well-formedness invariants, in every state reachable from the seed
state of `Executor::run` every node of the run instance has been enqueued
at most once, has been popped (fired) at most as often as it was enqueued,
and a node other than the input node is enqueued exactly when the single
winning test-and-set of its `_processed` flag has happened — no node is
ever enqueued a second time. -/
theorem claim_C1 (m : Mdf) (args : List Token) (r : Mdf × Option BuildError)
    (s0 s : RunState) (hspec : m.graph.validationSpec) (hswf : m.graph.succWF)
    (hmwf : m.graph.mapWF) (hiwf : m.graph.inputWF)
    (hrun : Executor.run m args = (r, some s0)) (hreach : RunReachable s0 s) :
    ∀ v, s.enqHist v ≤ 1 ∧ s.popHist v ≤ s.enqHist v ∧
      (v ≠ m.graph.input_node.toNat →
        s.enqHist v = (if s.inst.procOf v then 1 else 0)) := by
  have hinp : m.graph.input_node.toNat < m.graph.nodes.length := by
    rcases hiwf with h | h
    · exact absurd h hspec.1.2.1
    · exact h.2
  have hninp := no_step_into_input m.graph hspec
  have hinv := runInv_reachable m.graph m.graph.input_node.toNat hswf hmwf hninp s0 s
    (runInv_seed m args r s0 hrun hinp) hreach
  intro v
  have hq := hinv.queueCons v
  have hpop : s.popHist v ≤ s.enqHist v := by omega
  refine ⟨?_, hpop, hinv.enqOther v⟩
  by_cases hv : v = m.graph.input_node.toNat
  · rw [hv, hinv.enqInp]
  · rw [hinv.enqOther v hv]
    by_cases hp : s.inst.procOf v
    · rw [if_pos hp]
    · rw [if_neg hp]
      omega

/-- Witness for claim C1 at the seed state of a run of the `exHalf`
template: node 1 is enqueued at most once, popped at most as often as
enqueued, and (being distinct from the input node 0) enqueued exactly when
its `_processed` flag is set. -/
theorem claim_C1_witness :
    exHalfSeed.enqHist 1 ≤ 1 ∧ exHalfSeed.popHist 1 ≤ exHalfSeed.enqHist 1 ∧
      (1 ≠ exHalf.1.graph.input_node.toNat →
        exHalfSeed.enqHist 1 = (if exHalfSeed.inst.procOf 1 then 1 else 0)) :=
  claim_C1 exHalf.1 [Token.val 7] (Executor.run exHalf.1 [Token.val 7]).1
    exHalfSeed exHalfSeed exHalf_spec (succWF_of_forall _ (by decide))
    (mapWF_of_forall _ (by decide)) (Or.inr ⟨by decide, by decide⟩) rfl
    Relation.ReflTransGen.refl 1

/-- Claim C10: the `exHalf` template is accepted by `validate()` although
node 1 (not the input node, which is 0) has input slot 1 with no wired
producer (dependent bit clear) out of an input size of 2; consequently, in
every reachable state of a run, node 1's `_tokens_count` stays strictly
positive — it can never reach zero, so node 1 can never fire. -/
theorem claim_C10 :
    (exHalf.1.validate).2 = none ∧
    exHalf.1.graph.input_node = 0 ∧
    exHalf.1.graph.depBit 1 1 = false ∧
    exHalf.1.graph.inSizeOf 1 = 2 ∧
    (∀ s, RunReachable exHalfSeed s → 0 < s.inst.countOf 1) := by
  refine ⟨by decide, by decide, by decide, by decide, ?_⟩
  intro s hreach
  have hspec := exHalf_spec
  have hswf : exHalf.1.graph.succWF := succWF_of_forall _ (by decide)
  have hmwf : exHalf.1.graph.mapWF := mapWF_of_forall _ (by decide)
  have hinp : exHalf.1.graph.input_node.toNat < exHalf.1.graph.nodes.length := by decide
  have hrun : Executor.run exHalf.1 [Token.val 7] =
      ((Executor.run exHalf.1 [Token.val 7]).1, some exHalfSeed) := rfl
  have hinv := runInv_reachable exHalf.1.graph exHalf.1.graph.input_node.toNat hswf hmwf
    (no_step_into_input exHalf.1.graph hspec) exHalfSeed s
    (runInv_seed exHalf.1 [Token.val 7] _ exHalfSeed hrun hinp) hreach
  have hc := hinv.counts 1
  have hd := decs_le_totalWired exHalf.1.graph exHalf.1.graph.input_node.toNat s hinv 1
  have htw : exHalf.1.graph.totalWired 1 = 1 := by decide
  have hsz : exHalf.1.graph.inSizeOf 1 = 2 := by decide
  rw [htw] at hd
  rw [hsz] at hc
  omega

/-- Witness for claim C10 at the seed state: node 1's `_tokens_count` is
strictly positive there. -/
theorem claim_C10_witness : 0 < exHalfSeed.inst.countOf 1 :=
  claim_C10.2.2.2.2 exHalfSeed Relation.ReflTransGen.refl

end MDF
